import Mathlib

/-!
# Screen-layout editor of the emulator front-end

A shallow embedding of `citra_qt/configuration/custom_screen.cpp`,
`custom_screen_layout_editor.cpp` and the screen-related parts of
`configure_enhancements.cpp`, followed by theorems about it.

Conventions of the embedding

* C++ `int` is `Int` (no overflow is modelled), `unsigned` is `Nat`.
* A `double` is the rational number it denotes (`ℚ`), and every `double` operation rounds
  its exact result to binary64 (`binary64`: 53-bit significand, round to nearest, ties to
  even; the exponent range is not limited, infinities and NaN do not occur). The conversion
  `static_cast<int>` truncates toward zero.
* `assert` is modelled by `Option`: a violated assertion yields `none`.
* The Qt value classes `QPoint`, `QSize` and `QRect` follow the Qt definitions
  (`QRect` stores the inclusive corner coordinates `x1, y1, x2, y2`).
-/

namespace Citra

/-! ## Qt value classes -/

/-- Qt `QPoint`. -/
structure QPoint where
  x : Int
  y : Int
  deriving DecidableEq, Repr

/-- The sum of two points, `QPoint::operator+`. -/
def QPoint.add (p q : QPoint) : QPoint := ⟨p.x + q.x, p.y + q.y⟩

/-- The difference of two points, `QPoint::operator-`. -/
def QPoint.sub (p q : QPoint) : QPoint := ⟨p.x - q.x, p.y - q.y⟩

/-- Qt `QSize`. -/
structure QSize where
  width : Int
  height : Int
  deriving DecidableEq, Repr

/-- Qt `QRect`: the inclusive coordinates of the top-left and bottom-right pixels. -/
structure QRect where
  x1 : Int
  y1 : Int
  x2 : Int
  y2 : Int
  deriving DecidableEq, Repr

namespace QRect

/-- The constructor `QRect(const QPoint& topLeft, const QPoint& bottomRight)`. -/
def ofPoints (topLeft bottomRight : QPoint) : QRect :=
  ⟨topLeft.x, topLeft.y, bottomRight.x, bottomRight.y⟩

/-- The constructor `QRect(int x, int y, int width, int height)`. -/
def ofSize (x y width height : Int) : QRect :=
  ⟨x, y, x + width - 1, y + height - 1⟩

def left (r : QRect) : Int := r.x1
def top (r : QRect) : Int := r.y1
def right (r : QRect) : Int := r.x2
def bottom (r : QRect) : Int := r.y2
def x (r : QRect) : Int := r.x1
def y (r : QRect) : Int := r.y1
def width (r : QRect) : Int := r.x2 - r.x1 + 1
def height (r : QRect) : Int := r.y2 - r.y1 + 1
def topLeft (r : QRect) : QPoint := ⟨r.x1, r.y1⟩
def size (r : QRect) : QSize := ⟨r.width, r.height⟩

end QRect

/-! ## `RectangleSides` and the helpers of `custom_screen.cpp` -/

/-- The enumeration `RectangleSides : unsigned`, as its underlying value. -/
abbrev RectangleSides := Nat

namespace RectangleSides

def left : RectangleSides := 1 <<< 0
def top : RectangleSides := 1 <<< 1
def right : RectangleSides := 1 <<< 2
def bottom : RectangleSides := 1 <<< 3

end RectangleSides

/-- `IsClamped(v, lo, hi)`. -/
def IsClamped (v lo hi : Int) : Bool := decide (lo ≤ v) && decide (v < hi)

/-- `HasSingleBit(x)`: `x != 0 && (x & (x - 1)) == 0`. -/
def HasSingleBit (x : Nat) : Bool := x != 0 && (x &&& (x - 1)) == 0

/-- The integer part of the binary logarithm, by repeated halving (`fuel` bounds the loop). -/
def floorLog2 : Nat → Nat → Nat
  | 0, _ => 0
  | fuel + 1, x => if x < 2 then 0 else 1 + floorLog2 fuel (x / 2)

/-- `BitWidth(x)`: `x == 0 ? 0 : 1 + static_cast<unsigned>(std::log2(x))`. -/
def BitWidth (x : Nat) : Nat := if x = 0 then 0 else 1 + floorLog2 x x

/-! ## `double` arithmetic -/

/-- Rounding to the nearest integer, a tie to the even one. -/
def roundHalfEven (q : ℚ) : Int :=
  let f : Int := ⌊q⌋
  let r : ℚ := q - f
  if r < 1 / 2 then f
  else if 1 / 2 < r then f + 1
  else if f % 2 = 0 then f else f + 1

/-- The power of two with an integer exponent. -/
def twoPow (e : Int) : ℚ :=
  if 0 ≤ e then ((2 ^ e.toNat : Nat) : ℚ) else 1 / ((2 ^ (-e).toNat : Nat) : ℚ)

/-- The binary exponent of a non-zero rational: the `k` with `2 ^ k ≤ |q| < 2 ^ (k + 1)`. The
difference of the bit lengths of numerator and denominator is `k` or `k + 1`. -/
def floorLog2Rat (q : ℚ) : Int :=
  let k : Int := (floorLog2 q.num.natAbs q.num.natAbs : Int) - (floorLog2 q.den q.den : Int)
  if twoPow k ≤ |q| then k else k - 1

/-- The `double` nearest to a rational: the significand is rounded to 53 bits, a tie to the
even significand (IEEE 754 binary64, round to nearest even). -/
def binary64 (q : ℚ) : ℚ :=
  if q = 0 then 0
  else
    let e : Int := floorLog2Rat q - 52
    (roundHalfEven (q / twoPow e) : ℚ) * twoPow e

/-- The conversion of an `int` to `double`. -/
def Double.ofInt (n : Int) : ℚ := binary64 (n : ℚ)

/-- The product of two `double`s. -/
def Double.mul (a b : ℚ) : ℚ := binary64 (a * b)

/-- The quotient of two `double`s, for a divisor other than zero. -/
def Double.div (a b : ℚ) : ℚ := binary64 (a / b)

/-- `static_cast<int>` of a `double`: truncation toward zero. -/
def static_cast_int (q : ℚ) : Int := Int.tdiv q.num q.den

/-! ## `RectangleSideOffsets` -/

/-- The structure `RectangleSideOffsets`: the array `int sides[4]`, zero-initialised. -/
structure RectangleSideOffsets where
  sides0 : Int := 0
  sides1 : Int := 0
  sides2 : Int := 0
  sides3 : Int := 0
  deriving DecidableEq, Repr

namespace RectangleSideOffsets

/-- Reading `sides[i]`; an index outside the array yields `none`. -/
def read (o : RectangleSideOffsets) (i : Nat) : Option Int :=
  match i with
  | 0 => some o.sides0
  | 1 => some o.sides1
  | 2 => some o.sides2
  | 3 => some o.sides3
  | _ => none

/-- Writing `sides[i] = v`; an index outside the array yields `none`. -/
def write (o : RectangleSideOffsets) (i : Nat) (v : Int) : Option RectangleSideOffsets :=
  match i with
  | 0 => some { o with sides0 := v }
  | 1 => some { o with sides1 := v }
  | 2 => some { o with sides2 := v }
  | 3 => some { o with sides3 := v }
  | _ => none

/-- The accessor `operator[](RectangleSides s)`, used as an rvalue:
`assert(HasSingleBit(s)); return sides[BitWidth(s) - 1];`. -/
def get (o : RectangleSideOffsets) (s : RectangleSides) : Option Int :=
  if HasSingleBit s then o.read (BitWidth s - 1) else none

/-- The accessor `operator[](RectangleSides s)`, used as the target of an assignment. -/
def set (o : RectangleSideOffsets) (s : RectangleSides) (v : Int) :
    Option RectangleSideOffsets :=
  if HasSingleBit s then o.write (BitWidth s - 1) v else none

def left (o : RectangleSideOffsets) : Option Int := o.get RectangleSides.left
def top (o : RectangleSideOffsets) : Option Int := o.get RectangleSides.top
def right (o : RectangleSideOffsets) : Option Int := o.get RectangleSides.right
def bottom (o : RectangleSideOffsets) : Option Int := o.get RectangleSides.bottom

end RectangleSideOffsets

/-! ## The growth functions -/

/-- The function `prev(side)`; the side before `left` is `bottom`. -/
def prev (side : RectangleSides) : Option RectangleSides :=
  if HasSingleBit side then
    some (if side = RectangleSides.left then RectangleSides.bottom else side >>> 1)
  else none

/-- The function `next(side)`; the side after `bottom` is `left`. -/
def next (side : RectangleSides) : Option RectangleSides :=
  if HasSingleBit side then
    some (if side = RectangleSides.bottom then RectangleSides.left else side <<< 1)
  else none

/-- `HaveEqualOutwardsDirectionSign(l, r)`, with its assertion `l != r`. -/
def HaveEqualOutwardsDirectionSign (l r : RectangleSides) : Option Bool :=
  if l ≠ r then
    some ((l ||| r) == (RectangleSides.top ||| RectangleSides.left) ||
          (l ||| r) == (RectangleSides.bottom ||| RectangleSides.right))
  else none

/-- `GrowAdjacents(aspect_ratio, offsets, side)`. The two adjacent sides receive
`adjacent_growth / 2` and `-adjacent_growth / 2` (C++ integer division). -/
def GrowAdjacents (aspect_ratio : ℚ) (offsets : RectangleSideOffsets) (side : RectangleSides) :
    Option RectangleSideOffsets :=
  if HasSingleBit side then do
    let v ← offsets.get side
    let adjacent_growth : Int := static_cast_int (Double.mul aspect_ratio (Double.ofInt v))
    let p ← prev side
    let n ← next side
    let same ← HaveEqualOutwardsDirectionSign side p
    let adjacent_sides : RectangleSides × RectangleSides := if !same then (n, p) else (p, n)
    let o1 ← offsets.set adjacent_sides.1 (Int.tdiv adjacent_growth 2)
    o1.set adjacent_sides.2 (Int.tdiv (-adjacent_growth) 2)
  else none

/-- `FurthestOffset(side, l, r)`: the minimum for `top` and `left`, the maximum otherwise. -/
def FurthestOffset (side : RectangleSides) (l r : Int) : Option Int :=
  if HasSingleBit side then
    some (if side &&& (RectangleSides.top ||| RectangleSides.left) ≠ 0 then min l r else max l r)
  else none

def vertical_sides : RectangleSides := RectangleSides.left ||| RectangleSides.right
def horizontal_sides : RectangleSides := RectangleSides.top ||| RectangleSides.bottom

/-- `IsCorner(sides)`: one of left/right together with one of top/bottom. -/
def IsCorner (sides : RectangleSides) : Bool :=
  HasSingleBit (sides &&& vertical_sides) && HasSingleBit (sides &&& horizontal_sides)

/-- `GrowCorner(aspect_ratio, offsets, corner)`. The division by a zero aspect ratio, whose
conversion to `int` is undefined, yields `none`. -/
def GrowCorner (aspect_ratio : ℚ) (offsets : RectangleSideOffsets) (corner : RectangleSides) :
    Option RectangleSideOffsets :=
  if IsCorner corner then do
    let vertical_side : RectangleSides := corner &&& vertical_sides
    let horizontal_side : RectangleSides := corner &&& horizontal_sides
    let vertical_offset ← offsets.get vertical_side
    let horizontal_offset ← offsets.get horizontal_side
    let same ← HaveEqualOutwardsDirectionSign vertical_side horizontal_side
    let adjust : Int := if same then 1 else -1
    let grown_vertical_offset : Int :=
      static_cast_int (Double.mul (Double.ofInt horizontal_offset) aspect_ratio) * adjust
    if aspect_ratio = 0 then none else
    let grown_horizontal_offset : Int :=
      static_cast_int (Double.div (Double.ofInt vertical_offset) aspect_ratio) * adjust
    let v ← FurthestOffset vertical_side vertical_offset grown_vertical_offset
    let o1 ← offsets.set vertical_side v
    let h ← FurthestOffset horizontal_side horizontal_offset grown_horizontal_offset
    o1.set horizontal_side h
  else none

/-! ## `CustomScreen::Drag` -/

/-- The structure `CustomScreen::Drag`: what `mousePressEvent` records. -/
structure Drag where
  sides : RectangleSides
  original_screen_geometry : QRect
  press_position : QPoint
  deriving DecidableEq, Repr

/-- What one call of `Drag::operator()` asks of the screen: always a `move`, and a `resize`
unless the call returned right after the move. -/
structure DragRequest where
  move : QPoint
  resize : Option QSize
  deriving DecidableEq, Repr

/-- The offsets `Drag::operator()` starts from: the drag offset on every grabbed side. -/
def Drag.initialOffsets (sides : RectangleSides) (drag_offset : QPoint) : RectangleSideOffsets :=
  { sides0 := if sides &&& RectangleSides.left ≠ 0 then drag_offset.x else 0
    sides1 := if sides &&& RectangleSides.top ≠ 0 then drag_offset.y else 0
    sides2 := if sides &&& RectangleSides.right ≠ 0 then drag_offset.x else 0
    sides3 := if sides &&& RectangleSides.bottom ≠ 0 then drag_offset.y else 0 }

/-- The aspect ratio `Drag::operator()` computes,
`original_screen_geometry.width() * 1.0 / original_screen_geometry.height()`. -/
def Drag.aspect_ratio (d : Drag) : ℚ :=
  Double.div (Double.mul (Double.ofInt d.original_screen_geometry.width) 1)
    (Double.ofInt d.original_screen_geometry.height)

/-- The offsets of `Drag::operator()` after the optional aspect-ratio step. A zero height of the
original geometry, for which the aspect ratio is not a number, yields `none`. -/
def Drag.offsets (d : Drag) (keep_aspect_ratio : Bool) (drag_offset : QPoint) :
    Option RectangleSideOffsets :=
  let offsets := Drag.initialOffsets d.sides drag_offset
  if keep_aspect_ratio then
    if d.original_screen_geometry.height = 0 then none else
    if HasSingleBit d.sides then GrowAdjacents d.aspect_ratio offsets d.sides
    else GrowCorner d.aspect_ratio offsets d.sides
  else some offsets

/-- `Drag::operator()(screen, move_position)` up to the calls of `screen.move` and
`screen.resize`: the arguments it passes to them. Of `screen` it reads the state of the
check box and the minimum size. -/
def Drag.requests (d : Drag) (keep_aspect_ratio : Bool) (minimumWidth minimumHeight : Int)
    (move_position : QPoint) : Option DragRequest :=
  let drag_offset := move_position.sub d.press_position
  if d.sides = 0 then
    some ⟨d.original_screen_geometry.topLeft.add drag_offset, none⟩
  else do
    let offsets ← d.offsets keep_aspect_ratio drag_offset
    let l ← offsets.left
    let t ← offsets.top
    let r ← offsets.right
    let b ← offsets.bottom
    some ⟨⟨min (d.original_screen_geometry.x + l)
               (d.original_screen_geometry.right - minimumWidth + 1),
           min (d.original_screen_geometry.y + t)
               (d.original_screen_geometry.bottom - minimumHeight + 1)⟩,
          some ⟨d.original_screen_geometry.width + r - l,
                d.original_screen_geometry.height + b - t⟩⟩

/-! ## The widget `CustomScreen` -/

/-- The values of `Qt::MouseButtons` that the event handlers tell apart. -/
inductive MouseButtons where
  | NoButton
  | LeftButton
  | Other
  deriving DecidableEq, Repr

/-- The part of `QMouseEvent` that the event handlers read. -/
structure QMouseEvent where
  buttons : MouseButtons
  pos : QPoint
  globalPos : QPoint
  deriving DecidableEq, Repr

/-- The cursor shapes that the widget sets. -/
inductive CursorShape where
  | ArrowCursor
  | ClosedHandCursor
  | OpenHandCursor
  | SizeHorCursor
  | SizeVerCursor
  | SizeFDiagCursor
  | SizeBDiagCursor
  deriving DecidableEq, Repr

/-- What `setupUi` of the generated `Ui::CustomScreen` fixes for a new screen widget. The
form is not part of the sources, so its values are parameters. -/
structure ScreenUi where
  minimumWidth : Int
  minimumHeight : Int
  lineWidth : Int
  width : Int
  height : Int
  keep_aspect_ratio : Bool
  deriving DecidableEq, Repr

/-- The state of a `CustomScreen` widget: its label, its geometry inside the canvas, the
properties read by the drag code, the four spin boxes and the recorded drag. A spin box is
its value: the ranges of the boxes live in the form and are taken to hold every value set, so
that the `valueChanged` handlers, which move or resize the widget to the value just read from
it, change nothing. -/
structure CustomScreen where
  name : String
  geometry : QRect
  minimumWidth : Int
  minimumHeight : Int
  lineWidth : Int
  keep_aspect_ratio : Bool
  ui_left : Int
  ui_top : Int
  ui_width : Int
  ui_height : Int
  cursor : CursorShape
  drag : Drag
  deriving DecidableEq, Repr

namespace CustomScreen

def x (s : CustomScreen) : Int := s.geometry.x
def y (s : CustomScreen) : Int := s.geometry.y
def width (s : CustomScreen) : Int := s.geometry.width
def height (s : CustomScreen) : Int := s.geometry.height

/-- A newly constructed widget: at the origin of its parent, with the size of the form raised
to the minimum size. The member `drag`, which the constructor leaves alone, holds no side and
the null rectangle. -/
def create (ui : ScreenUi) : CustomScreen :=
  { name := ""
    geometry := QRect.ofSize 0 0 (max ui.width ui.minimumWidth) (max ui.height ui.minimumHeight)
    minimumWidth := ui.minimumWidth
    minimumHeight := ui.minimumHeight
    lineWidth := ui.lineWidth
    keep_aspect_ratio := ui.keep_aspect_ratio
    ui_left := 0
    ui_top := 0
    ui_width := 0
    ui_height := 0
    cursor := CursorShape.ArrowCursor
    drag := ⟨0, QRect.ofSize 0 0 0 0, ⟨0, 0⟩⟩ }

/-- `CustomScreen::setName`. -/
def setName (s : CustomScreen) (name : String) : CustomScreen := { s with name := name }

/-- Placing the widget at `(x, y)` with its size kept, without any event. -/
def setPos (s : CustomScreen) (x y : Int) : CustomScreen :=
  { s with geometry := QRect.ofSize x y s.width s.height }

/-- `CustomScreen::moveEvent`: `move(std::max(0, x()), std::max(0, y()))`, then the left and
top spin boxes take `x()` and `y()`. The event that the inner `move` may raise runs the same
body on an already clamped position, where it changes nothing more. -/
def moveEvent (s : CustomScreen) : CustomScreen :=
  let s1 := s.setPos (max 0 s.x) (max 0 s.y)
  { s1 with ui_left := s1.x, ui_top := s1.y }

/-- Qt `QWidget::move` on a shown widget: a changed position is stored and reported by a move
event. -/
def move (s : CustomScreen) (x y : Int) : CustomScreen :=
  if x = s.x ∧ y = s.y then s else (s.setPos x y).moveEvent

/-- `CustomScreen::resizeEvent`: `moveEvent(nullptr)`, then the width and height spin boxes
take `width()` and `height()`. -/
def resizeEvent (s : CustomScreen) : CustomScreen :=
  let s1 := s.moveEvent
  { s1 with ui_width := s1.width, ui_height := s1.height }

/-- Qt `QWidget::resize` on a shown widget: the size is raised to the minimum size (the maximum size is left at
its default, beyond every size used here); a changed size is stored and reported by a resize
event. -/
def resize (s : CustomScreen) (w h : Int) : CustomScreen :=
  let w1 := max w s.minimumWidth
  let h1 := max h s.minimumHeight
  if w1 = s.width ∧ h1 = s.height then s
  else resizeEvent { s with geometry := QRect.ofSize s.x s.y w1 h1 }

/-- Qt `QWidget::setGeometry` on a shown widget: the size is raised to the minimum size, the
rectangle is stored, then a move event is sent if the position changed and a resize event if
the size changed. -/
def setGeometry (s : CustomScreen) (r : QRect) : CustomScreen :=
  let w1 := max r.width s.minimumWidth
  let h1 := max r.height s.minimumHeight
  let isMove : Bool := decide (r.x ≠ s.x ∨ r.y ≠ s.y)
  let isResize : Bool := decide (w1 ≠ s.width ∨ h1 ≠ s.height)
  let s1 : CustomScreen := { s with geometry := QRect.ofSize r.x r.y w1 h1 }
  let s2 := if isMove then s1.moveEvent else s1
  if isResize then s2.resizeEvent else s2

/-- The rectangle a screen with the given minimum size ends up with when it is asked to take
the geometry `r`: the position clamped at zero by `moveEvent`, the size raised to the minimum
size. -/
def clampedGeometry (minimumWidth minimumHeight : Int) (r : QRect) : QRect :=
  QRect.ofSize (max 0 r.x) (max 0 r.y) (max r.width minimumWidth) (max r.height minimumHeight)

/-- The state every event handler leaves: a position inside the canvas and a size of at least
the minimum size. -/
def Settled (s : CustomScreen) : Prop :=
  0 ≤ s.x ∧ 0 ≤ s.y ∧ s.minimumWidth ≤ s.width ∧ s.minimumHeight ≤ s.height

/-- Qt `QWidget::setGeometry` on a widget that was not shown yet: the rectangle is stored with
its size raised to the minimum size, and the move and resize events stay pending until the
widget is shown. -/
def setGeometryHidden (s : CustomScreen) (r : QRect) : CustomScreen :=
  { s with
    geometry := QRect.ofSize r.x r.y (max r.width s.minimumWidth)
      (max r.height s.minimumHeight) }

/-- The first show of the widget: Qt delivers the pending move event, then the pending resize
event. -/
def firstShow (s : CustomScreen) : CustomScreen := s.moveEvent.resizeEvent

/-- `CustomScreen::SidesAt(pt)`. -/
def SidesAt (s : CustomScreen) (pt : QPoint) : RectangleSides :=
  (if IsClamped pt.x 0 s.lineWidth then RectangleSides.left else 0) |||
  (if IsClamped pt.y 0 s.lineWidth then RectangleSides.top else 0) |||
  (if IsClamped pt.x (s.width - s.lineWidth) s.width then RectangleSides.right else 0) |||
  (if IsClamped pt.y (s.height - s.lineWidth) s.height then RectangleSides.bottom else 0)

/-- `CustomScreen::mousePressEvent`: a press of the left button alone records the drag. -/
def mousePressEvent (s : CustomScreen) (event : QMouseEvent) : CustomScreen :=
  match event.buttons with
  | MouseButtons.LeftButton =>
    let drag : Drag := ⟨s.SidesAt event.pos, s.geometry, event.globalPos⟩
    { s with
      drag := drag
      cursor := if drag.sides = 0 then CursorShape.ClosedHandCursor else s.cursor }
  | _ => s

end CustomScreen

/-- `Drag::operator()(screen, move_position)`: the requests of `Drag.requests`, carried out
on the screen. -/
def Drag.call (d : Drag) (screen : CustomScreen) (move_position : QPoint) :
    Option CustomScreen :=
  (d.requests screen.keep_aspect_ratio screen.minimumWidth screen.minimumHeight
      move_position).map fun rq =>
    let moved := screen.move rq.move.x rq.move.y
    match rq.resize with
    | none => moved
    | some sz => moved.resize sz.width sz.height

/-- The cursor that `mouseMoveEvent` shows over the given sides while no button is down. -/
def hoverCursor (sides : RectangleSides) : CursorShape :=
  if sides = RectangleSides.left ∨ sides = RectangleSides.right then CursorShape.SizeHorCursor
  else if sides = RectangleSides.top ∨ sides = RectangleSides.bottom then
    CursorShape.SizeVerCursor
  else if sides = (RectangleSides.top ||| RectangleSides.left) ∨
      sides = (RectangleSides.bottom ||| RectangleSides.right) then CursorShape.SizeFDiagCursor
  else if sides = (RectangleSides.top ||| RectangleSides.right) ∨
      sides = (RectangleSides.bottom ||| RectangleSides.left) then CursorShape.SizeBDiagCursor
  else CursorShape.OpenHandCursor

/-- `CustomScreen::mouseMoveEvent`: without a button the cursor follows the sides under the
pointer, with the left button the recorded drag is applied. -/
def CustomScreen.mouseMoveEvent (s : CustomScreen) (event : QMouseEvent) :
    Option CustomScreen :=
  match event.buttons with
  | MouseButtons.NoButton => some { s with cursor := hoverCursor (s.SidesAt event.pos) }
  | MouseButtons.LeftButton => s.drag.call s event.globalPos
  | MouseButtons.Other => some s

/-! ## `CustomScreenLayoutEditor` -/

/-- The structure `CustomScreenLayoutEditor::RestorableScreen`. -/
structure RestorableScreen where
  screen : CustomScreen
  default_geometry : QRect
  reset_geometry : QRect
  deriving DecidableEq, Repr

/-- The state of the editor: the vector `screens`. -/
structure CustomScreenLayoutEditor where
  screens : List RestorableScreen
  deriving DecidableEq, Repr

namespace CustomScreenLayoutEditor

/-- The editor right after its constructor. -/
def empty : CustomScreenLayoutEditor := ⟨[]⟩

/-- The widget `addScreen` creates: constructed, given its geometry, then its name. The editor
is not shown at that time (`AddScreens` runs in the constructor of the settings page, the editor
is shown by a button later), so the geometry is stored without any event. -/
def newScreen (ui : ScreenUi) (name : String) (current_geometry : QRect) : CustomScreen :=
  ((CustomScreen.create ui).setGeometryHidden current_geometry).setName name

/-- `CustomScreenLayoutEditor::addScreen`. The member `reset_geometry` takes its default
initialiser `screen->geometry()`. -/
def addScreen (ui : ScreenUi) (e : CustomScreenLayoutEditor) (name : String)
    (default_geometry current_geometry : QRect) : CustomScreenLayoutEditor :=
  let s := newScreen ui name current_geometry
  ⟨e.screens ++ [⟨s, default_geometry, s.geometry⟩]⟩

/-- A sequence of `addScreen` calls, each given by its name, default geometry and current
geometry. -/
def addScreens (ui : ScreenUi) (e : CustomScreenLayoutEditor)
    (calls : List (String × QRect × QRect)) : CustomScreenLayoutEditor :=
  calls.foldl (fun e c => e.addScreen ui c.1 c.2.1 c.2.2) e

/-- `CustomScreenLayoutEditor::getScreen`: `std::find_if` over `screens`. -/
def getScreen (e : CustomScreenLayoutEditor) (name : String) : Option CustomScreen :=
  (e.screens.find? fun s => s.screen.name == name).map fun s => s.screen

/-- The editor is shown (`showMaximized`): every screen is shown for the first time. -/
def showMaximized (e : CustomScreenLayoutEditor) : CustomScreenLayoutEditor :=
  ⟨e.screens.map fun s => { s with screen := s.screen.firstShow }⟩

/-- The closure `set(geometry)` of the constructor: every screen takes the chosen recorded
geometry. -/
def set (geometry : RestorableScreen → QRect) (e : CustomScreenLayoutEditor) :
    CustomScreenLayoutEditor :=
  ⟨e.screens.map fun s => { s with screen := s.screen.setGeometry (geometry s) }⟩

/-- A click on the button Reset. -/
def clickReset (e : CustomScreenLayoutEditor) : CustomScreenLayoutEditor :=
  set RestorableScreen.reset_geometry e

/-- A click on the button Restore Defaults. -/
def clickRestoreDefaults (e : CustomScreenLayoutEditor) : CustomScreenLayoutEditor :=
  set RestorableScreen.default_geometry e

end CustomScreenLayoutEditor

/-- The record `r` of the editor stems from the `addScreen` call `c` (name, default geometry,
current geometry): it holds the recorded geometries of that call, and its widget is settled and
has the minimum size of the form. -/
def RestorableScreen.Tracks (ui : ScreenUi) (c : String × QRect × QRect)
    (r : RestorableScreen) : Prop :=
  r.default_geometry = c.2.1 ∧
  r.reset_geometry = (CustomScreenLayoutEditor.newScreen ui c.1 c.2.2).geometry ∧
  r.screen.Settled ∧
  r.screen.minimumWidth = ui.minimumWidth ∧ r.screen.minimumHeight = ui.minimumHeight

/-- The geometries of the screens of the editor, in the order of `screens`. -/
def CustomScreenLayoutEditor.geometries (e : CustomScreenLayoutEditor) : List QRect :=
  e.screens.map fun r => r.screen.geometry

/-- The recorded default and reset geometries of the screens, in the order of `screens`. -/
def CustomScreenLayoutEditor.recorded (e : CustomScreenLayoutEditor) : List (QRect × QRect) :=
  e.screens.map fun r => (r.default_geometry, r.reset_geometry)

/-- What a user can do to the editor once it is shown. -/
inductive EditorAction where
  | moveScreen (index : Nat) (x y : Int)
  | resizeScreen (index : Nat) (w h : Int)
  | press (index : Nat) (event : QMouseEvent)
  | mouseMove (index : Nat) (event : QMouseEvent)
  | setKeepAspectRatio (index : Nat) (checked : Bool)
  | reset
  | restoreDefaults
  deriving DecidableEq, Repr

/-- Applying a function to the widget of the screen at `index`. -/
def CustomScreenLayoutEditor.onScreen (e : CustomScreenLayoutEditor) (index : Nat)
    (f : CustomScreen → CustomScreen) : CustomScreenLayoutEditor :=
  ⟨e.screens.modify (fun s => { s with screen := f s.screen }) index⟩

/-- One action on the editor. A mouse move whose drag fails an assertion leaves the screen
as it was. -/
def EditorAction.apply (e : CustomScreenLayoutEditor) : EditorAction → CustomScreenLayoutEditor
  | .moveScreen i x y => e.onScreen i fun s => s.move x y
  | .resizeScreen i w h => e.onScreen i fun s => s.resize w h
  | .press i event => e.onScreen i fun s => s.mousePressEvent event
  | .mouseMove i event => e.onScreen i fun s => (s.mouseMoveEvent event).getD s
  | .setKeepAspectRatio i checked => e.onScreen i fun s => { s with keep_aspect_ratio := checked }
  | .reset => e.clickReset
  | .restoreDefaults => e.clickRestoreDefaults

/-- A sequence of actions, applied from left to right. -/
def CustomScreenLayoutEditor.run (e : CustomScreenLayoutEditor) (actions : List EditorAction) :
    CustomScreenLayoutEditor :=
  actions.foldl EditorAction.apply e

/-! ## `ConfigureEnhancements` -/

/-- The screen sizes of `core/3ds.h`, which is not part of the sources: parameters. -/
structure Core where
  kScreenTopWidth : Int
  kScreenTopHeight : Int
  kScreenBottomWidth : Int
  kScreenBottomHeight : Int
  deriving DecidableEq, Repr

/-- The enumeration `Settings::StereoRenderOption`. -/
inductive StereoRenderOption where
  | Off
  | SideBySide
  | Anaglyph
  | Interlaced
  | ReverseInterlaced
  deriving DecidableEq, Repr

/-- The fields of `Settings::values` that the modelled code reads or writes. -/
structure Values where
  custom_top_left : Int
  custom_top_top : Int
  custom_top_right : Int
  custom_top_bottom : Int
  custom_bottom_left : Int
  custom_bottom_top : Int
  custom_bottom_right : Int
  custom_bottom_bottom : Int
  pp_shader_name : String
  deriving DecidableEq, Repr

def g_top_screen_name : String := "Top"
def g_bottom_screen_name : String := "Bottom"

/-- The current geometry `AddScreens` builds from four stored coordinates:
`{QPoint{left, top}, QPoint{right - 1, bottom - 1}}`. -/
def storedGeometry (left top right bottom : Int) : QRect :=
  QRect.ofPoints ⟨left, top⟩ ⟨right - 1, bottom - 1⟩

/-- The four coordinates `ApplyConfiguration` stores for a geometry:
`left()`, `top()`, `right() + 1`, `bottom() + 1`. -/
def geometryToStore (r : QRect) : Int × Int × Int × Int :=
  (r.left, r.top, r.right + 1, r.bottom + 1)

/-- `AddScreens(layout_editor)`. -/
def AddScreens (ui : ScreenUi) (core : Core) (values : Values)
    (layout_editor : CustomScreenLayoutEditor) : CustomScreenLayoutEditor :=
  let e1 := layout_editor.addScreen ui g_top_screen_name
    (QRect.ofSize 0 0 core.kScreenTopWidth core.kScreenTopHeight)
    (storedGeometry values.custom_top_left values.custom_top_top
      values.custom_top_right values.custom_top_bottom)
  e1.addScreen ui g_bottom_screen_name
    (QRect.ofSize 40 core.kScreenTopHeight core.kScreenBottomWidth core.kScreenBottomHeight)
    (storedGeometry values.custom_bottom_left values.custom_bottom_top
      values.custom_bottom_right values.custom_bottom_bottom)

/-- The block of `ConfigureEnhancements::ApplyConfiguration` that stores the layout. The
closure `geometry` asserts that the screen was found. -/
def ApplyConfiguration (layout_editor : CustomScreenLayoutEditor) (values : Values) :
    Option Values := do
  let top_screen ← (layout_editor.getScreen g_top_screen_name).map fun s => s.geometry
  let bottom_screen ← (layout_editor.getScreen g_bottom_screen_name).map fun s => s.geometry
  let t := geometryToStore top_screen
  let b := geometryToStore bottom_screen
  some { values with
    custom_top_left := t.1
    custom_top_top := t.2.1
    custom_top_right := t.2.2.1
    custom_top_bottom := t.2.2.2
    custom_bottom_left := b.1
    custom_bottom_top := b.2.1
    custom_bottom_right := b.2.2.1
    custom_bottom_bottom := b.2.2.2 }

/-- Qt `QComboBox`, as far as `updateShaders` uses it: the item texts and the current index,
which is `-1` while the box is empty. -/
structure QComboBox where
  items : List String
  currentIndex : Int
  deriving DecidableEq, Repr

namespace QComboBox

def clear (_ : QComboBox) : QComboBox := ⟨[], -1⟩

def count (c : QComboBox) : Int := c.items.length

/-- `addItem`: the item is appended; the first item of an empty box becomes current. -/
def addItem (c : QComboBox) (text : String) : QComboBox :=
  ⟨c.items ++ [text], if c.items = [] then 0 else c.currentIndex⟩

/-- `setCurrentIndex`: an index outside the items clears the selection. -/
def setCurrentIndex (c : QComboBox) (index : Int) : QComboBox :=
  { c with currentIndex := if 0 ≤ index ∧ index < c.count then index else -1 }

end QComboBox

/-- The built-in entry that `updateShaders` adds first. -/
def builtinShader (stereo_option : StereoRenderOption) : String :=
  if stereo_option = StereoRenderOption.Anaglyph then "dubois (builtin)"
  else if stereo_option = StereoRenderOption.Interlaced ∨
      stereo_option = StereoRenderOption.ReverseInterlaced then "horizontal (builtin)"
  else "none (builtin)"

/-- The body of the loop of `updateShaders` for one shader of the list. -/
def updateShadersStep (pp_shader_name : String) (c : QComboBox) (shader : String) : QComboBox :=
  let c1 := c.addItem shader
  if pp_shader_name = shader then c1.setCurrentIndex (c1.count - 1) else c1

/-- `ConfigureEnhancements::updateShaders(stereo_option)`. The function
`OpenGL::GetPostProcessingShaderList(bool anaglyph)` lies outside the sources and is the
parameter `GetPostProcessingShaderList`. -/
def updateShaders (GetPostProcessingShaderList : Bool → List String) (pp_shader_name : String)
    (shader_combobox : QComboBox) (stereo_option : StereoRenderOption) : QComboBox :=
  let c0 := (shader_combobox.clear.addItem (builtinShader stereo_option)).setCurrentIndex 0
  (GetPostProcessingShaderList (decide (stereo_option = StereoRenderOption.Anaglyph))).foldl
    (updateShadersStep pp_shader_name) c0

end Citra

namespace Citra

/-! ## Sample states -/

/-- A screen whose last press hit the interior, used to instantiate the interior drag. -/
def pressedInside : CustomScreen :=
  ((CustomScreen.create ⟨20, 20, 2, 100, 60, true⟩).setGeometry
    (QRect.ofSize 30 40 100 60)).mousePressEvent
      ⟨MouseButtons.LeftButton, ⟨50, 30⟩, ⟨80, 70⟩⟩

/-- The form used in the samples: minimum size 20 by 20, line width 2. -/
def sampleUi : ScreenUi := ⟨20, 20, 2, 100, 60, true⟩

/-- Two `addScreen` calls with the names, default and current geometries of a session. -/
def sampleCalls : List (String × QRect × QRect) :=
  [("Top", QRect.ofSize 0 0 400 240, QRect.ofSize 10 10 400 240),
   ("Bottom", QRect.ofSize 40 240 320 240, QRect.ofSize 40 250 320 240),
   ("Top", QRect.ofSize 0 0 100 100, QRect.ofSize 5 5 100 100)]

/-- A short session in the editor. -/
def sampleActions : List EditorAction :=
  [EditorAction.moveScreen 0 (-50) 60, EditorAction.resizeScreen 1 5 100,
   EditorAction.restoreDefaults,
   EditorAction.press 0 ⟨MouseButtons.LeftButton, ⟨1, 1⟩, ⟨1, 1⟩⟩,
   EditorAction.mouseMove 0 ⟨MouseButtons.LeftButton, ⟨11, 7⟩, ⟨11, 7⟩⟩]

end Citra

/-! # Theorems -/

namespace Citra

/-! ## Rounding to `double` keeps the sign and never reaches zero -/

theorem twoPow_eq_zpow (e : Int) : twoPow e = (2 : ℚ) ^ e := by
  unfold twoPow
  split_ifs with h
  · obtain ⟨n, rfl⟩ := Int.eq_ofNat_of_zero_le h
    simp
  · have h2 : 0 ≤ -e := by omega
    obtain ⟨n, hn⟩ := Int.eq_ofNat_of_zero_le h2
    have he : e = -(n : Int) := by omega
    subst he
    simp

theorem twoPow_pos (e : Int) : 0 < twoPow e := by
  rw [twoPow_eq_zpow]
  positivity

theorem roundHalfEven_nonneg (q : ℚ) (h : 0 ≤ q) : 0 ≤ roundHalfEven q := by
  have hf : (0 : Int) ≤ ⌊q⌋ := Int.floor_nonneg.2 h
  unfold roundHalfEven
  simp only []
  split_ifs <;> omega

theorem roundHalfEven_nonpos (q : ℚ) (h : q ≤ 0) : roundHalfEven q ≤ 0 := by
  unfold roundHalfEven
  simp only []
  rcases lt_or_eq_of_le h with hlt | heq
  · have hf : ⌊q⌋ ≤ -1 := by
      have : ⌊q⌋ < 0 := Int.floor_lt.2 (by simpa using hlt)
      omega
    split_ifs <;> omega
  · subst heq
    simp

theorem roundHalfEven_ne_zero (q : ℚ) (h : 1 ≤ |q|) : roundHalfEven q ≠ 0 := by
  unfold roundHalfEven
  simp only []
  rcases le_abs.1 h with h1 | h1
  · have hf : (1 : Int) ≤ ⌊q⌋ := Int.le_floor.2 (by simpa using h1)
    split_ifs <;> omega
  · have hq : q ≤ -1 := by linarith
    have hfl : ⌊q⌋ ≤ -1 := by
      have : (⌊q⌋ : ℚ) ≤ q := Int.floor_le q
      have h3 : (⌊q⌋ : ℚ) ≤ ((-1 : Int) : ℚ) := by push_cast; linarith
      exact_mod_cast h3
    rcases lt_or_eq_of_le hfl with hlt | heq
    · split_ifs <;> omega
    · have hq2 : q = -1 := by
        have : ((⌊q⌋ : Int) : ℚ) ≤ q := Int.floor_le q
        rw [heq] at this
        push_cast at this
        linarith
      subst hq2
      norm_num

/-- The bit length computed by `floorLog2` brackets its argument. -/
theorem floorLog2_spec : ∀ (fuel x : Nat), 0 < x → x ≤ fuel →
    2 ^ floorLog2 fuel x ≤ x ∧ x < 2 ^ (floorLog2 fuel x + 1) := by
  intro fuel
  induction fuel with
  | zero => intro x h1 h2; omega
  | succ n ih =>
    intro x h1 h2
    unfold floorLog2
    split_ifs with hx
    · simp only [pow_zero, zero_add, pow_one]
      omega
    · have hx2 : 0 < x / 2 := Nat.div_pos (by omega) (by decide)
      have hx3 : x / 2 ≤ n := by omega
      obtain ⟨l, u⟩ := ih (x / 2) hx2 hx3
      constructor
      · rw [Nat.add_comm, pow_succ]
        omega
      · rw [pow_succ] at u ⊢
        rw [Nat.add_comm 1, pow_succ]
        omega

/-- The exponent found by `floorLog2Rat` is not above the binary exponent of its argument. -/
theorem twoPow_floorLog2Rat_le (q : ℚ) (hq : q ≠ 0) : twoPow (floorLog2Rat q) ≤ |q| := by
  unfold floorLog2Rat
  simp only []
  split_ifs with h
  · exact h
  · have hn : 0 < q.num.natAbs := Int.natAbs_pos.2 (Rat.num_ne_zero.2 hq)
    have hd : 0 < q.den := q.den_pos
    obtain ⟨la, -⟩ := floorLog2_spec q.num.natAbs q.num.natAbs hn le_rfl
    obtain ⟨-, ub⟩ := floorLog2_spec q.den q.den hd le_rfl
    generalize floorLog2 q.num.natAbs q.num.natAbs = a at la ⊢
    generalize floorLog2 q.den q.den = b at ub ⊢
    have hdq : (0 : ℚ) < (q.den : ℚ) := by exact_mod_cast hd
    have habs : |q| = (q.num.natAbs : ℚ) / (q.den : ℚ) := by
      have e0 : |q| = |(q.num : ℚ) / (q.den : ℚ)| := by rw [Rat.num_div_den]
      rw [e0, abs_div, abs_of_pos hdq, Nat.cast_natAbs, Int.cast_abs]
    rw [twoPow_eq_zpow, habs]
    have e1 : (2 : ℚ) ^ ((a : Int) - (b : Int) - 1) = (2 : ℚ) ^ a / (2 : ℚ) ^ (b + 1) := by
      rw [show (a : Int) - (b : Int) - 1 = (a : Int) - ((b + 1 : Nat) : Int) by push_cast; ring,
        zpow_sub₀ (by norm_num : (2 : ℚ) ≠ 0), zpow_natCast, zpow_natCast]
    rw [e1]
    have la' : ((2 : ℚ) ^ a) ≤ (q.num.natAbs : ℚ) := by exact_mod_cast la
    have ub' : (q.den : ℚ) ≤ (2 : ℚ) ^ (b + 1) := by exact_mod_cast ub.le
    exact div_le_div₀ (by positivity) la' hdq ub'

theorem binary64_zero : binary64 0 = 0 := by
  unfold binary64
  simp

theorem binary64_nonneg (q : ℚ) (h : 0 ≤ q) : 0 ≤ binary64 q := by
  unfold binary64
  split_ifs
  · exact le_rfl
  · have hy : 0 ≤ q / twoPow (floorLog2Rat q - 52) := div_nonneg h (twoPow_pos _).le
    have := roundHalfEven_nonneg _ hy
    exact mul_nonneg (by exact_mod_cast this) (twoPow_pos _).le

theorem binary64_nonpos (q : ℚ) (h : q ≤ 0) : binary64 q ≤ 0 := by
  unfold binary64
  split_ifs
  · exact le_rfl
  · have hy : q / twoPow (floorLog2Rat q - 52) ≤ 0 :=
      div_nonpos_of_nonpos_of_nonneg h (twoPow_pos _).le
    have := roundHalfEven_nonpos _ hy
    exact mul_nonpos_of_nonpos_of_nonneg (by exact_mod_cast this) (twoPow_pos _).le

/-- Rounding to `double` does not reach zero from a non-zero value. -/
theorem binary64_ne_zero (q : ℚ) (hq : q ≠ 0) : binary64 q ≠ 0 := by
  unfold binary64
  rw [if_neg hq]
  simp only []
  have hle := twoPow_floorLog2Rat_le q hq
  have hpos := twoPow_pos (floorLog2Rat q - 52)
  have hy : 1 ≤ |q / twoPow (floorLog2Rat q - 52)| := by
    rw [abs_div, abs_of_pos hpos, le_div_iff₀ hpos, one_mul]
    refine le_trans ?_ hle
    rw [twoPow_eq_zpow, twoPow_eq_zpow]
    exact zpow_le_zpow_right₀ (by norm_num) (by omega)
  have hr := roundHalfEven_ne_zero _ hy
  exact mul_ne_zero (by exact_mod_cast hr) hpos.ne'

end Citra

namespace Citra

/-! ## Auxiliary facts: the accessors of the offsets and the growth of one side -/

theorem get_left (o : RectangleSideOffsets) : o.get 1 = some o.sides0 := rfl
theorem get_top (o : RectangleSideOffsets) : o.get 2 = some o.sides1 := rfl
theorem get_right (o : RectangleSideOffsets) : o.get 4 = some o.sides2 := rfl
theorem get_bottom (o : RectangleSideOffsets) : o.get 8 = some o.sides3 := rfl

theorem set_left (o : RectangleSideOffsets) (v : Int) :
    o.set 1 v = some { o with sides0 := v } := rfl
theorem set_top (o : RectangleSideOffsets) (v : Int) :
    o.set 2 v = some { o with sides1 := v } := rfl
theorem set_right (o : RectangleSideOffsets) (v : Int) :
    o.set 4 v = some { o with sides2 := v } := rfl
theorem set_bottom (o : RectangleSideOffsets) (v : Int) :
    o.set 8 v = some { o with sides3 := v } := rfl

/-- `GrowAdjacents` on the top side: left and right take the two halves. -/
theorem GrowAdjacents_top (ar : ℚ) (o : RectangleSideOffsets) :
    GrowAdjacents ar o RectangleSides.top =
      some { o with
        sides0 := Int.tdiv (static_cast_int (Double.mul ar (Double.ofInt o.sides1))) 2
        sides2 := Int.tdiv (-static_cast_int (Double.mul ar (Double.ofInt o.sides1))) 2 } := rfl

/-- `GrowAdjacents` on the bottom side: right and left take the two halves. -/
theorem GrowAdjacents_bottom (ar : ℚ) (o : RectangleSideOffsets) :
    GrowAdjacents ar o RectangleSides.bottom =
      some { o with
        sides2 := Int.tdiv (static_cast_int (Double.mul ar (Double.ofInt o.sides3))) 2
        sides0 := Int.tdiv (-static_cast_int (Double.mul ar (Double.ofInt o.sides3))) 2 } := rfl

/-- `GrowAdjacents` on the left side: top and bottom take the two halves. -/
theorem GrowAdjacents_left (ar : ℚ) (o : RectangleSideOffsets) :
    GrowAdjacents ar o RectangleSides.left =
      some { o with
        sides1 := Int.tdiv (static_cast_int (Double.mul ar (Double.ofInt o.sides0))) 2
        sides3 := Int.tdiv (-static_cast_int (Double.mul ar (Double.ofInt o.sides0))) 2 } := rfl

/-- `GrowAdjacents` on the right side: bottom and top take the two halves. -/
theorem GrowAdjacents_right (ar : ℚ) (o : RectangleSideOffsets) :
    GrowAdjacents ar o RectangleSides.right =
      some { o with
        sides3 := Int.tdiv (static_cast_int (Double.mul ar (Double.ofInt o.sides2))) 2
        sides1 := Int.tdiv (-static_cast_int (Double.mul ar (Double.ofInt o.sides2))) 2 } := rfl

end Citra

namespace Citra

/-- `GrowCorner` on the top-left corner. -/
theorem GrowCorner_topLeft (ar : ℚ) (har : ar ≠ 0) (o : RectangleSideOffsets) :
    GrowCorner ar o (RectangleSides.left ||| RectangleSides.top) =
      some { o with
        sides0 := min o.sides0 (static_cast_int (Double.mul (Double.ofInt o.sides1) ar) * 1)
        sides1 := min o.sides1 (static_cast_int (Double.div (Double.ofInt o.sides0) ar) * 1) } := by
  show (if ar = 0 then none else _) = _
  rw [if_neg har]
  rfl

/-- `GrowCorner` on the bottom-right corner. -/
theorem GrowCorner_bottomRight (ar : ℚ) (har : ar ≠ 0) (o : RectangleSideOffsets) :
    GrowCorner ar o (RectangleSides.right ||| RectangleSides.bottom) =
      some { o with
        sides2 := max o.sides2 (static_cast_int (Double.mul (Double.ofInt o.sides3) ar) * 1)
        sides3 := max o.sides3 (static_cast_int (Double.div (Double.ofInt o.sides2) ar) * 1) } := by
  show (if ar = 0 then none else _) = _
  rw [if_neg har]
  rfl

/-- `GrowCorner` on the top-right corner. -/
theorem GrowCorner_topRight (ar : ℚ) (har : ar ≠ 0) (o : RectangleSideOffsets) :
    GrowCorner ar o (RectangleSides.right ||| RectangleSides.top) =
      some { o with
        sides2 := max o.sides2 (static_cast_int (Double.mul (Double.ofInt o.sides1) ar) * -1)
        sides1 := min o.sides1 (static_cast_int (Double.div (Double.ofInt o.sides2) ar) * -1) } := by
  show (if ar = 0 then none else _) = _
  rw [if_neg har]
  rfl

/-- `GrowCorner` on the bottom-left corner. -/
theorem GrowCorner_bottomLeft (ar : ℚ) (har : ar ≠ 0) (o : RectangleSideOffsets) :
    GrowCorner ar o (RectangleSides.left ||| RectangleSides.bottom) =
      some { o with
        sides0 := min o.sides0 (static_cast_int (Double.mul (Double.ofInt o.sides3) ar) * -1)
        sides3 := max o.sides3 (static_cast_int (Double.div (Double.ofInt o.sides0) ar) * -1) } := by
  show (if ar = 0 then none else _) = _
  rw [if_neg har]
  rfl

end Citra

namespace Citra

/-- With a side grabbed, the requests are the ones computed from the offsets. -/
theorem requests_of_offsets (d : Drag) (keep : Bool) (minimumWidth minimumHeight : Int)
    (p : QPoint) (o : RectangleSideOffsets) (hs : d.sides ≠ 0)
    (ho : d.offsets keep (p.sub d.press_position) = some o) :
    d.requests keep minimumWidth minimumHeight p =
      some ⟨⟨min (d.original_screen_geometry.x + o.sides0)
                 (d.original_screen_geometry.right - minimumWidth + 1),
             min (d.original_screen_geometry.y + o.sides1)
                 (d.original_screen_geometry.bottom - minimumHeight + 1)⟩,
            some ⟨d.original_screen_geometry.width + o.sides2 - o.sides0,
                  d.original_screen_geometry.height + o.sides3 - o.sides1⟩⟩ := by
  unfold Drag.requests
  rw [if_neg hs]
  simp only [ho]
  rfl

/-- The two candidate offsets of a corner are ordered alike: with `dy * w = h * a` and
`dx * h = w * b`, the horizontal offset `dx` is below the grown one `a` exactly when the grown
vertical one `b` is below `dy`. -/
theorem grown_le_iff {w h dx dy a b : Int} (hw : 0 < w) (hh : 0 < h)
    (ha : dy * w = h * a) (hb : dx * h = w * b) : dx ≤ a ↔ b ≤ dy := by
  constructor
  · intro hle
    by_contra hlt
    push_neg at hlt
    nlinarith [mul_nonneg (sub_nonneg.2 hle) hh.le, mul_pos (sub_pos.2 hlt) hw]
  · intro hle
    by_contra hlt
    push_neg at hlt
    nlinarith [mul_nonneg (sub_nonneg.2 hle) hw.le, mul_pos (sub_pos.2 hlt) hh]

theorem corner_min_min {w h dx dy a b : Int} (hw : 0 < w) (hh : 0 < h)
    (ha : dy * w = h * a) (hb : dx * h = w * b) : min dx a * h = min dy b * w := by
  rcases le_total dx a with hle | hle
  · have := (grown_le_iff hw hh ha hb).1 hle
    rw [min_eq_left hle, min_eq_right this, hb]; ring
  · have h2 : dy ≤ b := by
      by_contra hlt
      push_neg at hlt
      have := (grown_le_iff hw hh ha hb).2 hlt.le
      have e : a = dx := le_antisymm hle this
      subst e
      have : w * b = w * dy := by nlinarith
      have := mul_left_cancel₀ hw.ne' this
      omega
    rw [min_eq_right hle, min_eq_left h2, ha]; ring

theorem corner_max_max {w h dx dy a b : Int} (hw : 0 < w) (hh : 0 < h)
    (ha : dy * w = h * a) (hb : dx * h = w * b) : max dx a * h = max dy b * w := by
  have := @corner_min_min w h (-dx) (-dy) (-a) (-b) hw hh
    (by rw [neg_mul, ha]; ring) (by rw [neg_mul, hb]; ring)
  rw [min_neg_neg, min_neg_neg] at this
  linarith

theorem corner_max_min {w h dx dy a b : Int} (hw : 0 < w) (hh : 0 < h)
    (ha : dy * w = h * a) (hb : dx * h = w * b) : max dx (-a) * h = -(min dy (-b) * w) := by
  have := @corner_max_max w h dx (-dy) (-a) b hw hh
    (by rw [neg_mul, ha]; ring) hb
  rw [this]
  have e : max (-dy) b = -min dy (-b) := by
    rw [← max_neg_neg, neg_neg]
  rw [e]; ring

end Citra

namespace Citra

/-- The offsets of a drag with the aspect ratio kept and a corner grabbed. -/
theorem offsets_corner (d : Drag) (q : QPoint) (hh : d.original_screen_geometry.height ≠ 0)
    (hs : HasSingleBit d.sides = false) :
    d.offsets true q = GrowCorner d.aspect_ratio (Drag.initialOffsets d.sides q) d.sides := by
  unfold Drag.offsets
  simp [hh, hs]

/-- The offsets of a drag with the aspect ratio kept and a single side grabbed. -/
theorem offsets_side (d : Drag) (q : QPoint)
    (hh : d.original_screen_geometry.height ≠ 0) (hs : HasSingleBit d.sides = true) :
    d.offsets true q = GrowAdjacents d.aspect_ratio (Drag.initialOffsets d.sides q) d.sides := by
  unfold Drag.offsets
  simp [hh, hs]

/-- The aspect ratio of a geometry of non-zero width and height is not zero. -/
theorem aspect_ratio_ne_zero (d : Drag) (hw : d.original_screen_geometry.width ≠ 0)
    (hh : d.original_screen_geometry.height ≠ 0) : d.aspect_ratio ≠ 0 := by
  unfold Drag.aspect_ratio Double.div Double.mul Double.ofInt
  have h1 : binary64 (d.original_screen_geometry.width : ℚ) ≠ 0 :=
    binary64_ne_zero _ (by exact_mod_cast hw)
  have h2 : binary64 (d.original_screen_geometry.height : ℚ) ≠ 0 :=
    binary64_ne_zero _ (by exact_mod_cast hh)
  have h3 : binary64 (binary64 (d.original_screen_geometry.width : ℚ) * 1) ≠ 0 :=
    binary64_ne_zero _ (by simpa using h1)
  exact binary64_ne_zero _ (div_ne_zero h3 h2)

theorem initialOffsets_topLeft (q : QPoint) :
    Drag.initialOffsets (RectangleSides.left ||| RectangleSides.top) q = ⟨q.x, q.y, 0, 0⟩ := rfl

theorem initialOffsets_topRight (q : QPoint) :
    Drag.initialOffsets (RectangleSides.right ||| RectangleSides.top) q = ⟨0, q.y, q.x, 0⟩ := rfl

theorem initialOffsets_bottomLeft (q : QPoint) :
    Drag.initialOffsets (RectangleSides.left ||| RectangleSides.bottom) q = ⟨q.x, 0, 0, q.y⟩ :=
  rfl

theorem initialOffsets_bottomRight (q : QPoint) :
    Drag.initialOffsets (RectangleSides.right ||| RectangleSides.bottom) q = ⟨0, 0, q.x, q.y⟩ :=
  rfl

/-- The size requested for a corner when the two conversions of `GrowCorner` return `a` and
`b` with `dy * w = h * a` and `dx * h = w * b`. -/
theorem corner_resize_of_exact (d : Drag) (minimumWidth minimumHeight : Int) (p : QPoint)
    (a b : Int)
    (hcorner : d.sides = (RectangleSides.left ||| RectangleSides.top) ∨
      d.sides = (RectangleSides.right ||| RectangleSides.top) ∨
      d.sides = (RectangleSides.left ||| RectangleSides.bottom) ∨
      d.sides = (RectangleSides.right ||| RectangleSides.bottom))
    (hw : 0 < d.original_screen_geometry.width) (hh : 0 < d.original_screen_geometry.height)
    (ea : static_cast_int (Double.mul (Double.ofInt (p.y - d.press_position.y))
      d.aspect_ratio) = a)
    (eb : static_cast_int (Double.div (Double.ofInt (p.x - d.press_position.x))
      d.aspect_ratio) = b)
    (ha : (p.y - d.press_position.y) * d.original_screen_geometry.width =
      d.original_screen_geometry.height * a)
    (hb : (p.x - d.press_position.x) * d.original_screen_geometry.height =
      d.original_screen_geometry.width * b) :
    ∃ o pos size, d.offsets true (p.sub d.press_position) = some o ∧
      d.requests true minimumWidth minimumHeight p = some ⟨pos, some size⟩ ∧
      size.width = d.original_screen_geometry.width + o.sides2 - o.sides0 ∧
      size.height = d.original_screen_geometry.height + o.sides3 - o.sides1 ∧
      size.width * d.original_screen_geometry.height =
        size.height * d.original_screen_geometry.width := by
  have har := aspect_ratio_ne_zero d hw.ne' hh.ne'
  have mm := corner_min_min hw hh ha hb
  have xx := corner_max_max hw hh ha hb
  have xm := corner_max_min hw hh ha hb
  have mx := corner_max_min hh hw hb ha
  rcases hcorner with hc | hc | hc | hc
  all_goals
    have hne : d.sides ≠ 0 := by rw [hc]; decide
    have hsb : HasSingleBit d.sides = false := by rw [hc]; decide
    have ho := offsets_corner d (p.sub d.press_position) hh.ne' hsb
    rw [hc] at ho
    first
      | rw [GrowCorner_topLeft _ har, initialOffsets_topLeft] at ho
      | rw [GrowCorner_topRight _ har, initialOffsets_topRight] at ho
      | rw [GrowCorner_bottomLeft _ har, initialOffsets_bottomLeft] at ho
      | rw [GrowCorner_bottomRight _ har, initialOffsets_bottomRight] at ho
    refine ⟨_, _, _, ho, requests_of_offsets d true _ _ p _ hne ho, rfl, rfl, ?_⟩
    simp only [QPoint.sub]
    rw [ea, eb]
    simp only [mul_one, mul_neg, add_zero]
    linarith

/-- C2, as amended. With the aspect ratio kept and a corner grabbed, for an original geometry
of positive width `w` and height `h` and a pointer offset `(dx, dy)` for which the two
conversions to `int` in `GrowCorner` return exactly `dy * w / h` and `dx * h / w`,
`Drag::operator()` computes offsets and requests a size `w + right - left` by
`h + bottom - top` that has the original aspect ratio: `width * h = height * w`. -/
theorem corner_resize_preserves_aspect_ratio (d : Drag) (minimumWidth minimumHeight : Int)
    (p : QPoint)
    (hcorner : d.sides = (RectangleSides.left ||| RectangleSides.top) ∨
      d.sides = (RectangleSides.right ||| RectangleSides.top) ∨
      d.sides = (RectangleSides.left ||| RectangleSides.bottom) ∨
      d.sides = (RectangleSides.right ||| RectangleSides.bottom))
    (hw : 0 < d.original_screen_geometry.width) (hh : 0 < d.original_screen_geometry.height)
    (hy : static_cast_int (Double.mul (Double.ofInt (p.y - d.press_position.y))
        d.aspect_ratio) * d.original_screen_geometry.height =
      (p.y - d.press_position.y) * d.original_screen_geometry.width)
    (hx : static_cast_int (Double.div (Double.ofInt (p.x - d.press_position.x))
        d.aspect_ratio) * d.original_screen_geometry.width =
      (p.x - d.press_position.x) * d.original_screen_geometry.height) :
    ∃ o pos size, d.offsets true (p.sub d.press_position) = some o ∧
      d.requests true minimumWidth minimumHeight p = some ⟨pos, some size⟩ ∧
      size.width = d.original_screen_geometry.width + o.sides2 - o.sides0 ∧
      size.height = d.original_screen_geometry.height + o.sides3 - o.sides1 ∧
      size.width * d.original_screen_geometry.height =
        size.height * d.original_screen_geometry.width :=
  corner_resize_of_exact d minimumWidth minimumHeight p _ _ hcorner hw hh rfl rfl
    (by rw [← hy]; ring) (by rw [← hx]; ring)

/-- C2, as stated, fails. A screen of 100 by 116 grabbed by its top-left corner and dragged by
`(-100, -145)`: both `-145 * 100 / 116 = -125` and `-100 * 116 / 100 = -116` are integers, but
the `double` product `-145 * (100.0 / 116)` lies just above `-125` and converts to `-124`, so
the requested size is 224 by 261, and `224 * 116 ≠ 261 * 100`. -/
theorem corner_resize_rounding_breaks_aspect_ratio :
    (116 : Int) ∣ -145 * 100 ∧ (100 : Int) ∣ -100 * 116 ∧
      static_cast_int (Double.mul (Double.ofInt (-145))
        (Drag.aspect_ratio ⟨RectangleSides.left ||| RectangleSides.top,
          QRect.ofSize 0 0 100 116, ⟨0, 0⟩⟩)) = -124 ∧
      Drag.requests ⟨RectangleSides.left ||| RectangleSides.top, QRect.ofSize 0 0 100 116,
        ⟨0, 0⟩⟩ true 0 0 ⟨-100, -145⟩ = some ⟨⟨-124, -145⟩, some ⟨224, 261⟩⟩ ∧
      (224 : Int) * 116 ≠ 261 * 100 := by
  decide!

end Citra

namespace Citra

theorem initialOffsets_left (q : QPoint) :
    Drag.initialOffsets RectangleSides.left q = ⟨q.x, 0, 0, 0⟩ := rfl

theorem initialOffsets_top (q : QPoint) :
    Drag.initialOffsets RectangleSides.top q = ⟨0, q.y, 0, 0⟩ := rfl

theorem initialOffsets_right (q : QPoint) :
    Drag.initialOffsets RectangleSides.right q = ⟨0, 0, q.x, 0⟩ := rfl

theorem initialOffsets_bottom (q : QPoint) :
    Drag.initialOffsets RectangleSides.bottom q = ⟨0, 0, 0, q.y⟩ := rfl

/-- C3, as amended. With the aspect ratio kept and exactly the top or the bottom side grabbed,
for an original geometry of width `w` and positive height `h` and a vertical pointer offset
`dy` for which the conversion to `int` in `GrowAdjacents` returns exactly `w * dy / h` and
that value is even, `Drag::operator()` computes offsets and requests a size
`w + right - left` by `h + bottom - top` that has the original aspect ratio:
`width * h = height * w`. -/
theorem top_bottom_resize_preserves_aspect_ratio (d : Drag) (minimumWidth minimumHeight : Int)
    (p : QPoint)
    (hside : d.sides = RectangleSides.top ∨ d.sides = RectangleSides.bottom)
    (hh : 0 < d.original_screen_geometry.height)
    (hy : static_cast_int (Double.mul d.aspect_ratio (Double.ofInt (p.y - d.press_position.y))) *
        d.original_screen_geometry.height =
      d.original_screen_geometry.width * (p.y - d.press_position.y))
    (heven : 2 ∣
      static_cast_int (Double.mul d.aspect_ratio (Double.ofInt (p.y - d.press_position.y)))) :
    ∃ o pos size, d.offsets true (p.sub d.press_position) = some o ∧
      d.requests true minimumWidth minimumHeight p = some ⟨pos, some size⟩ ∧
      size.width = d.original_screen_geometry.width + o.sides2 - o.sides0 ∧
      size.height = d.original_screen_geometry.height + o.sides3 - o.sides1 ∧
      size.width * d.original_screen_geometry.height =
        size.height * d.original_screen_geometry.width := by
  obtain ⟨m, hm⟩ := heven
  rw [hm] at hy
  rcases hside with hc | hc
  all_goals
    have hne : d.sides ≠ 0 := by rw [hc]; decide
    have hsb : HasSingleBit d.sides = true := by rw [hc]; decide
    have ho := offsets_side d (p.sub d.press_position) hh.ne' hsb
    rw [hc] at ho
    first
      | rw [GrowAdjacents_top, initialOffsets_top] at ho
      | rw [GrowAdjacents_bottom, initialOffsets_bottom] at ho
    refine ⟨_, _, _, ho, requests_of_offsets d true _ _ p _ hne ho, rfl, rfl, ?_⟩
    simp only [QPoint.sub]
    rw [hm, Int.neg_tdiv, Int.mul_tdiv_cancel_left m (by decide : (2 : Int) ≠ 0)]
    linarith

/-- C3, as stated, fails. A screen of 100 by 194 grabbed by its bottom side and dragged down by
97 pixels: `100 * 97 / 194 = 50` is an even integer, but the `double` product
`(100.0 / 194) * 97` lies just below 50 and converts to 49, which halves to 24 and -24, so the
requested size is 148 by 291, and `148 * 194 ≠ 291 * 100`. -/
theorem top_bottom_resize_rounding_breaks_aspect_ratio :
    (2 * 194 : Int) ∣ 100 * 97 ∧
      static_cast_int (Double.mul
        (Drag.aspect_ratio ⟨RectangleSides.bottom, QRect.ofSize 0 0 100 194, ⟨0, 0⟩⟩)
        (Double.ofInt 97)) = 49 ∧
      Drag.requests ⟨RectangleSides.bottom, QRect.ofSize 0 0 100 194, ⟨0, 0⟩⟩ true 0 0
        ⟨0, 97⟩ = some ⟨⟨-24, 0⟩, some ⟨148, 291⟩⟩ ∧
      (148 : Int) * 194 ≠ 291 * 100 := by
  decide!

/-- What `Drag::operator()` requests when the left side is grabbed, the aspect ratio is kept
and the conversion in `GrowAdjacents` returns exactly the even integer `w * dx / h`: the height
changes by `w * dx / h`, the product of the offset and the aspect ratio, where the aspect ratio
asks for `dx * h / w`. The requested size has the original aspect ratio only when nothing was
dragged or the screen is a square. -/
theorem left_resize_requested_size (d : Drag) (minimumWidth minimumHeight : Int) (p : QPoint)
    (hside : d.sides = RectangleSides.left)
    (hw : 0 < d.original_screen_geometry.width) (hh : 0 < d.original_screen_geometry.height)
    (hx : static_cast_int (Double.mul d.aspect_ratio (Double.ofInt (p.x - d.press_position.x))) *
        d.original_screen_geometry.height =
      d.original_screen_geometry.width * (p.x - d.press_position.x))
    (heven : 2 ∣
      static_cast_int (Double.mul d.aspect_ratio (Double.ofInt (p.x - d.press_position.x)))) :
    ∃ pos size, d.requests true minimumWidth minimumHeight p = some ⟨pos, some size⟩ ∧
      size.width = d.original_screen_geometry.width - (p.x - d.press_position.x) ∧
      size.height * d.original_screen_geometry.height =
        d.original_screen_geometry.height * d.original_screen_geometry.height -
          d.original_screen_geometry.width * (p.x - d.press_position.x) ∧
      (size.width * d.original_screen_geometry.height =
          size.height * d.original_screen_geometry.width ↔
        p.x - d.press_position.x = 0 ∨
          d.original_screen_geometry.width = d.original_screen_geometry.height) := by
  obtain ⟨m, hm⟩ := heven
  rw [hm] at hx
  have hk : d.original_screen_geometry.width * (p.x - d.press_position.x) =
      d.original_screen_geometry.height * (2 * m) := by rw [← hx]; ring
  have hne : d.sides ≠ 0 := by rw [hside]; decide
  have hsb : HasSingleBit d.sides = true := by rw [hside]; decide
  have ho := offsets_side d (p.sub d.press_position) hh.ne' hsb
  rw [hside, GrowAdjacents_left, initialOffsets_left] at ho
  refine ⟨_, _, requests_of_offsets d true _ _ p _ hne ho, ?_, ?_, ?_⟩
  · simp only [QPoint.sub]; ring
  · simp only [QPoint.sub]
    rw [hm, Int.neg_tdiv, Int.mul_tdiv_cancel_left m (by decide : (2 : Int) ≠ 0), hk]
    ring
  · simp only [QPoint.sub]
    rw [hm, Int.neg_tdiv, Int.mul_tdiv_cancel_left m (by decide : (2 : Int) ≠ 0)]
    generalize d.original_screen_geometry.width = w at hw hk ⊢
    generalize d.original_screen_geometry.height = h at hh hk ⊢
    generalize p.x - d.press_position.x = dx at hk ⊢
    constructor
    · intro e
      have e2 : dx * (w - h) * (w + h) = 0 := by
        have : (w + 0 - dx) * h * h = (h + -m - m) * h * w := by rw [e]; ring
        have h3 : (h + -m - m) * h = h * h - w * dx := by rw [hk]; ring
        rw [h3] at this
        linarith [this]
      rcases mul_eq_zero.1 e2 with e3 | e3
      · rcases mul_eq_zero.1 e3 with e4 | e4
        · exact Or.inl e4
        · exact Or.inr (by omega)
      · omega
    · rintro (e | e)
      · subst e
        have : m = 0 := by
          have : h * (2 * m) = 0 := by rw [← hk]; ring
          rcases mul_eq_zero.1 this with h0 | h0 <;> omega
        subst this
        ring
      · subst e
        have : dx = 2 * m := by
          have := mul_left_cancel₀ hw.ne' hk
          exact this
        subst this
        ring

/-- C4. The top screen of 400 by 240 at the origin, grabbed by its left side and dragged 30
pixels to the right with the aspect ratio kept: the growth `400 * 30 / 240 = 50` is an even
integer, the requested size is 370 by 190, and `370 * 240 ≠ 190 * 400`. The same drag of the
right side requests 430 by 290. -/
theorem left_right_resize_breaks_aspect_ratio :
    Drag.requests ⟨RectangleSides.left, QRect.ofSize 0 0 400 240, ⟨0, 0⟩⟩ true 0 0 ⟨30, 0⟩ =
        some ⟨⟨30, 25⟩, some ⟨370, 190⟩⟩ ∧
      Drag.requests ⟨RectangleSides.right, QRect.ofSize 0 0 400 240, ⟨0, 0⟩⟩ true 0 0 ⟨30, 0⟩ =
        some ⟨⟨0, -25⟩, some ⟨430, 290⟩⟩ ∧
      (370 : Int) * 240 ≠ 190 * 400 ∧ (430 : Int) * 240 ≠ 290 * 400 := by
  decide!

end Citra

namespace Citra

/-- The top screen grabbed by its top-right corner and dragged by `(30, -18)`. -/
theorem corner_resize_preserves_aspect_ratio_witness :
    ∃ o pos size,
      (⟨RectangleSides.right ||| RectangleSides.top, QRect.ofSize 0 0 400 240, ⟨5, 5⟩⟩ :
          Drag).offsets true ((⟨35, -13⟩ : QPoint).sub ⟨5, 5⟩) = some o ∧
      (⟨RectangleSides.right ||| RectangleSides.top, QRect.ofSize 0 0 400 240, ⟨5, 5⟩⟩ :
          Drag).requests true 10 10 ⟨35, -13⟩ = some ⟨pos, some size⟩ ∧
      size.width = 400 + o.sides2 - o.sides0 ∧
      size.height = 240 + o.sides3 - o.sides1 ∧
      size.width * 240 = size.height * 400 :=
  corner_resize_preserves_aspect_ratio
    ⟨RectangleSides.right ||| RectangleSides.top, QRect.ofSize 0 0 400 240, ⟨5, 5⟩⟩ 10 10
    ⟨35, -13⟩ (Or.inr (Or.inl rfl)) (by decide) (by decide) (by decide!) (by decide!)

/-- The top screen grabbed by its bottom side and dragged down by 12 pixels. -/
theorem top_bottom_resize_preserves_aspect_ratio_witness :
    ∃ o pos size,
      (⟨RectangleSides.bottom, QRect.ofSize 0 0 400 240, ⟨5, 5⟩⟩ :
          Drag).offsets true ((⟨5, 17⟩ : QPoint).sub ⟨5, 5⟩) = some o ∧
      (⟨RectangleSides.bottom, QRect.ofSize 0 0 400 240, ⟨5, 5⟩⟩ :
          Drag).requests true 10 10 ⟨5, 17⟩ = some ⟨pos, some size⟩ ∧
      size.width = 400 + o.sides2 - o.sides0 ∧
      size.height = 240 + o.sides3 - o.sides1 ∧
      size.width * 240 = size.height * 400 :=
  top_bottom_resize_preserves_aspect_ratio
    ⟨RectangleSides.bottom, QRect.ofSize 0 0 400 240, ⟨5, 5⟩⟩ 10 10
    ⟨5, 17⟩ (Or.inr rfl) (by decide) (by decide!) (by decide!)

/-- Storing the rectangle built from four coordinates returns the coordinates. -/
theorem geometryToStore_storedGeometry (left top right bottom : Int) :
    geometryToStore (storedGeometry left top right bottom) = (left, top, right, bottom) := by
  simp [geometryToStore, storedGeometry, QRect.ofPoints, QRect.left, QRect.top, QRect.right,
    QRect.bottom]

/-- Building the rectangle from the coordinates stored for it returns the rectangle. -/
theorem storedGeometry_geometryToStore (r : QRect) :
    storedGeometry (geometryToStore r).1 (geometryToStore r).2.1 (geometryToStore r).2.2.1
      (geometryToStore r).2.2.2 = r := by
  cases r
  simp [geometryToStore, storedGeometry, QRect.ofPoints, QRect.left, QRect.top, QRect.right,
    QRect.bottom]

/-- C1. Building a rectangle from four stored coordinates the way `AddScreens` does and
storing it back the way `ApplyConfiguration` does returns the four coordinates; storing a
rectangle and building it again returns the rectangle. -/
theorem settings_geometry_round_trip (left top right bottom : Int) (r : QRect) :
    geometryToStore (storedGeometry left top right bottom) = (left, top, right, bottom) ∧
      storedGeometry (geometryToStore r).1 (geometryToStore r).2.1 (geometryToStore r).2.2.1
        (geometryToStore r).2.2.2 = r :=
  ⟨geometryToStore_storedGeometry left top right bottom, storedGeometry_geometryToStore r⟩

/-- The drag recorded by a press survives `mouseMoveEvent`, and so do the check box and the
minimum size. -/
theorem mouseMoveEvent_drag (s s1 : CustomScreen) (event : QMouseEvent)
    (h : s.mouseMoveEvent event = some s1) :
    s1.drag = s.drag ∧ s1.keep_aspect_ratio = s.keep_aspect_ratio ∧
      s1.minimumWidth = s.minimumWidth ∧ s1.minimumHeight = s.minimumHeight := by
  unfold CustomScreen.mouseMoveEvent at h
  cases hb : event.buttons <;> rw [hb] at h <;> simp only [Option.some.injEq] at h
  · subst h; exact ⟨rfl, rfl, rfl, rfl⟩
  · unfold Drag.call at h
    rcases hr : s.drag.requests s.keep_aspect_ratio s.minimumWidth s.minimumHeight
      event.globalPos with _ | rq
    · rw [hr] at h; simp at h
    · rw [hr] at h
      simp only [Option.map_some', Option.some.injEq] at h
      subst h
      cases rq.resize <;>
        simp only [CustomScreen.move, CustomScreen.resize, CustomScreen.resizeEvent,
          CustomScreen.moveEvent, CustomScreen.setPos] <;>
        (repeat' split) <;> exact ⟨rfl, rfl, rfl, rfl⟩
  · subst h; exact ⟨rfl, rfl, rfl, rfl⟩

/-- C5. When the press recorded no side, `Drag::operator()` requests a move to the original
top-left corner plus the pointer offset and no resize, whatever the check box and the minimum
size are; a first `mouseMoveEvent` with the left button succeeds and keeps the recorded drag,
so the request for a second pointer position is the one made without the first move. -/
theorem interior_drag_moves_without_resize (s : CustomScreen) (keep : Bool)
    (minimumWidth minimumHeight : Int) (e1 : QMouseEvent) (p : QPoint)
    (hs : s.drag.sides = 0) (h1 : e1.buttons = MouseButtons.LeftButton) :
    s.drag.requests keep minimumWidth minimumHeight p =
        some ⟨⟨s.drag.original_screen_geometry.x + (p.x - s.drag.press_position.x),
               s.drag.original_screen_geometry.y + (p.y - s.drag.press_position.y)⟩, none⟩ ∧
      ∃ s1, s.mouseMoveEvent e1 = some s1 ∧ s1.drag = s.drag ∧
        s1.drag.requests keep minimumWidth minimumHeight p =
          s.drag.requests keep minimumWidth minimumHeight p := by
  have hreq : ∀ (k : Bool) (mw mh : Int) (q : QPoint), s.drag.requests k mw mh q =
      some ⟨⟨s.drag.original_screen_geometry.x + (q.x - s.drag.press_position.x),
             s.drag.original_screen_geometry.y + (q.y - s.drag.press_position.y)⟩, none⟩ := by
    intro k mw mh q
    unfold Drag.requests
    rw [if_pos hs]
    rfl
  refine ⟨hreq _ _ _ _, ?_⟩
  have hsome : ∃ s1, s.mouseMoveEvent e1 = some s1 := by
    unfold CustomScreen.mouseMoveEvent
    rw [h1]
    simp only [Drag.call, hreq, Option.map_some']
    exact ⟨_, rfl⟩
  obtain ⟨s1, hs1⟩ := hsome
  have hd := (mouseMoveEvent_drag s s1 e1 hs1).1
  exact ⟨s1, hs1, hd, by rw [hd]⟩

end Citra

namespace Citra

/-- A screen pressed in its interior and dragged in two steps. -/
theorem interior_drag_moves_without_resize_witness :
    pressedInside.drag.requests true 20 20 ⟨90, 60⟩ =
        some ⟨⟨pressedInside.drag.original_screen_geometry.x +
                 (90 - pressedInside.drag.press_position.x),
               pressedInside.drag.original_screen_geometry.y +
                 (60 - pressedInside.drag.press_position.y)⟩, none⟩ ∧
      ∃ s1, pressedInside.mouseMoveEvent ⟨MouseButtons.LeftButton, ⟨55, 35⟩, ⟨85, 75⟩⟩ =
          some s1 ∧ s1.drag = pressedInside.drag ∧
        s1.drag.requests true 20 20 ⟨90, 60⟩ = pressedInside.drag.requests true 20 20 ⟨90, 60⟩ :=
  interior_drag_moves_without_resize pressedInside true 20 20
    ⟨MouseButtons.LeftButton, ⟨55, 35⟩, ⟨85, 75⟩⟩ ⟨90, 60⟩ (by decide) rfl

end Citra

namespace Citra

/-- Without the aspect ratio kept, the offsets are the initial ones. -/
theorem offsets_free (d : Drag) (q : QPoint) :
    d.offsets false q = some (Drag.initialOffsets d.sides q) := rfl

/-- C6. With the aspect ratio not kept, a single side or a corner grabbed, an original geometry
at least as large as the minimum size and a pointer offset that keeps the requested size at or
above the minimum size, the rectangle `Drag::operator()` requests has every grabbed edge at
its original coordinate plus the offset (`dx` for left and right, `dy` for top and bottom) and
every other edge at its original coordinate. -/
theorem free_resize_moves_only_grabbed_edges (d : Drag) (minimumWidth minimumHeight : Int)
    (p : QPoint)
    (hsides : d.sides = RectangleSides.left ∨ d.sides = RectangleSides.top ∨
      d.sides = RectangleSides.right ∨ d.sides = RectangleSides.bottom ∨
      d.sides = (RectangleSides.left ||| RectangleSides.top) ∨
      d.sides = (RectangleSides.right ||| RectangleSides.top) ∨
      d.sides = (RectangleSides.left ||| RectangleSides.bottom) ∨
      d.sides = (RectangleSides.right ||| RectangleSides.bottom))
    (hw : minimumWidth ≤ d.original_screen_geometry.width)
    (hh : minimumHeight ≤ d.original_screen_geometry.height)
    (hw2 : minimumWidth ≤ d.original_screen_geometry.width +
      (Drag.initialOffsets d.sides (p.sub d.press_position)).sides2 -
      (Drag.initialOffsets d.sides (p.sub d.press_position)).sides0)
    (hh2 : minimumHeight ≤ d.original_screen_geometry.height +
      (Drag.initialOffsets d.sides (p.sub d.press_position)).sides3 -
      (Drag.initialOffsets d.sides (p.sub d.press_position)).sides1) :
    ∃ pos size, d.requests false minimumWidth minimumHeight p = some ⟨pos, some size⟩ ∧
      (QRect.ofSize pos.x pos.y size.width size.height).left =
        d.original_screen_geometry.left +
          (if d.sides &&& RectangleSides.left ≠ 0 then p.x - d.press_position.x else 0) ∧
      (QRect.ofSize pos.x pos.y size.width size.height).top =
        d.original_screen_geometry.top +
          (if d.sides &&& RectangleSides.top ≠ 0 then p.y - d.press_position.y else 0) ∧
      (QRect.ofSize pos.x pos.y size.width size.height).right =
        d.original_screen_geometry.right +
          (if d.sides &&& RectangleSides.right ≠ 0 then p.x - d.press_position.x else 0) ∧
      (QRect.ofSize pos.x pos.y size.width size.height).bottom =
        d.original_screen_geometry.bottom +
          (if d.sides &&& RectangleSides.bottom ≠ 0 then p.y - d.press_position.y else 0) := by
  have hne : d.sides ≠ 0 := by
    rcases hsides with h | h | h | h | h | h | h | h <;> rw [h] <;> decide
  have e0 : (if d.sides &&& RectangleSides.left ≠ 0 then p.x - d.press_position.x else 0) =
      (Drag.initialOffsets d.sides (p.sub d.press_position)).sides0 := rfl
  have e1 : (if d.sides &&& RectangleSides.top ≠ 0 then p.y - d.press_position.y else 0) =
      (Drag.initialOffsets d.sides (p.sub d.press_position)).sides1 := rfl
  have e2 : (if d.sides &&& RectangleSides.right ≠ 0 then p.x - d.press_position.x else 0) =
      (Drag.initialOffsets d.sides (p.sub d.press_position)).sides2 := rfl
  have e3 : (if d.sides &&& RectangleSides.bottom ≠ 0 then p.y - d.press_position.y else 0) =
      (Drag.initialOffsets d.sides (p.sub d.press_position)).sides3 := rfl
  refine ⟨_, _, requests_of_offsets d false _ _ p _ hne (offsets_free d _), ?_⟩
  rw [e0, e1, e2, e3]
  generalize p.sub d.press_position = q at hw2 hh2 ⊢
  rcases hsides with h | h | h | h | h | h | h | h <;> rw [h] at hw2 hh2 ⊢
  all_goals
    first
      | rw [initialOffsets_left] at hw2 hh2 ⊢
      | rw [initialOffsets_top] at hw2 hh2 ⊢
      | rw [initialOffsets_right] at hw2 hh2 ⊢
      | rw [initialOffsets_bottom] at hw2 hh2 ⊢
      | rw [initialOffsets_topLeft] at hw2 hh2 ⊢
      | rw [initialOffsets_topRight] at hw2 hh2 ⊢
      | rw [initialOffsets_bottomLeft] at hw2 hh2 ⊢
      | rw [initialOffsets_bottomRight] at hw2 hh2 ⊢
    simp only [QRect.ofSize, QRect.left, QRect.top, QRect.right, QRect.bottom,
      QRect.x, QRect.y, QRect.width, QRect.height] at hw hh hw2 hh2 ⊢
    omega

/-- A screen grabbed by its bottom-left corner and resized freely. -/
theorem free_resize_moves_only_grabbed_edges_witness :
    ∃ pos size,
      (⟨RectangleSides.left ||| RectangleSides.bottom, QRect.ofSize 10 20 400 240, ⟨5, 5⟩⟩ :
          Drag).requests false 50 40 ⟨35, -13⟩ = some ⟨pos, some size⟩ ∧
      (QRect.ofSize pos.x pos.y size.width size.height).left =
        (QRect.ofSize 10 20 400 240).left +
          (if (RectangleSides.left ||| RectangleSides.bottom) &&& RectangleSides.left ≠ 0
            then 35 - 5 else 0) ∧
      (QRect.ofSize pos.x pos.y size.width size.height).top =
        (QRect.ofSize 10 20 400 240).top +
          (if (RectangleSides.left ||| RectangleSides.bottom) &&& RectangleSides.top ≠ 0
            then -13 - 5 else 0) ∧
      (QRect.ofSize pos.x pos.y size.width size.height).right =
        (QRect.ofSize 10 20 400 240).right +
          (if (RectangleSides.left ||| RectangleSides.bottom) &&& RectangleSides.right ≠ 0
            then 35 - 5 else 0) ∧
      (QRect.ofSize pos.x pos.y size.width size.height).bottom =
        (QRect.ofSize 10 20 400 240).bottom +
          (if (RectangleSides.left ||| RectangleSides.bottom) &&& RectangleSides.bottom ≠ 0
            then -13 - 5 else 0) :=
  free_resize_moves_only_grabbed_edges
    ⟨RectangleSides.left ||| RectangleSides.bottom, QRect.ofSize 10 20 400 240, ⟨5, 5⟩⟩ 50 40
    ⟨35, -13⟩ (by decide) (by decide) (by decide) (by decide) (by decide)

end Citra

namespace Citra

/-- The union `SidesAt` forms from its four tests. -/
theorem SidesAt_eq (s : CustomScreen) (pt : QPoint) :
    s.SidesAt pt =
      (if IsClamped pt.x 0 s.lineWidth then RectangleSides.left else 0) |||
      (if IsClamped pt.y 0 s.lineWidth then RectangleSides.top else 0) |||
      (if IsClamped pt.x (s.width - s.lineWidth) s.width then RectangleSides.right else 0) |||
      (if IsClamped pt.y (s.height - s.lineWidth) s.height then RectangleSides.bottom else 0) :=
  rfl

/-- A strip of width `lw` at the start and one at the end of an extent of at least `2 * lw` do
not overlap. -/
theorem IsClamped_disjoint (v lw extent : Int) (h : 2 * lw ≤ extent) :
    (IsClamped v 0 lw && IsClamped v (extent - lw) extent) = false := by
  unfold IsClamped
  by_cases h1 : v < lw
  · have h2 : ¬ (extent - lw ≤ v) := by omega
    simp [h2]
  · simp [h1]

/-- Unions of the four tests in which opposite sides exclude each other: nothing, a side or a
corner. -/
theorem sides_union_cases : ∀ a b c e : Bool, (a && c) = false → (b && e) = false →
    ((if a then RectangleSides.left else 0) ||| (if b then RectangleSides.top else 0) |||
      (if c then RectangleSides.right else 0) ||| (if e then RectangleSides.bottom else 0))
      ∈ [0, RectangleSides.left, RectangleSides.top, RectangleSides.right,
          RectangleSides.bottom, RectangleSides.left ||| RectangleSides.top,
          RectangleSides.right ||| RectangleSides.top,
          RectangleSides.left ||| RectangleSides.bottom,
          RectangleSides.right ||| RectangleSides.bottom] := by
  decide

/-- With a side or a corner grabbed and a geometry of non-zero width and height, the
aspect-ratio step passes every assertion and returns offsets. -/
theorem offsets_succeed (d : Drag) (q : QPoint)
    (hw : d.original_screen_geometry.width ≠ 0) (hh : d.original_screen_geometry.height ≠ 0)
    (hs : d.sides = RectangleSides.left ∨ d.sides = RectangleSides.top ∨
      d.sides = RectangleSides.right ∨ d.sides = RectangleSides.bottom ∨
      d.sides = (RectangleSides.left ||| RectangleSides.top) ∨
      d.sides = (RectangleSides.right ||| RectangleSides.top) ∨
      d.sides = (RectangleSides.left ||| RectangleSides.bottom) ∨
      d.sides = (RectangleSides.right ||| RectangleSides.bottom)) :
    ∃ o, d.offsets true q = some o := by
  have har := aspect_ratio_ne_zero d hw hh
  rcases hs with h | h | h | h | h | h | h | h
  · rw [offsets_side d q hh (by rw [h]; decide), h]
    exact ⟨_, GrowAdjacents_left _ _⟩
  · rw [offsets_side d q hh (by rw [h]; decide), h]
    exact ⟨_, GrowAdjacents_top _ _⟩
  · rw [offsets_side d q hh (by rw [h]; decide), h]
    exact ⟨_, GrowAdjacents_right _ _⟩
  · rw [offsets_side d q hh (by rw [h]; decide), h]
    exact ⟨_, GrowAdjacents_bottom _ _⟩
  · rw [offsets_corner d q hh (by rw [h]; decide), h]
    exact ⟨_, GrowCorner_topLeft _ har _⟩
  · rw [offsets_corner d q hh (by rw [h]; decide), h]
    exact ⟨_, GrowCorner_topRight _ har _⟩
  · rw [offsets_corner d q hh (by rw [h]; decide), h]
    exact ⟨_, GrowCorner_bottomLeft _ har _⟩
  · rw [offsets_corner d q hh (by rw [h]; decide), h]
    exact ⟨_, GrowCorner_bottomRight _ har _⟩

/-- C10. For a widget at least twice as wide and as high as its line width, `SidesAt` returns
the empty set, one side, or one of left/right together with one of top/bottom, never two
opposite sides; a non-empty result has a single bit or is a corner, also as the sides recorded
by a press, and the aspect-ratio step of `Drag::operator()` then passes its assertions. -/
theorem SidesAt_side_corner_or_nothing (s : CustomScreen) (pt : QPoint)
    (hw : 2 * s.lineWidth ≤ s.width) (hh : 2 * s.lineWidth ≤ s.height) :
    (s.SidesAt pt = 0 ∨ s.SidesAt pt = RectangleSides.left ∨ s.SidesAt pt = RectangleSides.top ∨
      s.SidesAt pt = RectangleSides.right ∨ s.SidesAt pt = RectangleSides.bottom ∨
      s.SidesAt pt = (RectangleSides.left ||| RectangleSides.top) ∨
      s.SidesAt pt = (RectangleSides.right ||| RectangleSides.top) ∨
      s.SidesAt pt = (RectangleSides.left ||| RectangleSides.bottom) ∨
      s.SidesAt pt = (RectangleSides.right ||| RectangleSides.bottom)) ∧
    ¬ (s.SidesAt pt &&& RectangleSides.left ≠ 0 ∧ s.SidesAt pt &&& RectangleSides.right ≠ 0) ∧
    ¬ (s.SidesAt pt &&& RectangleSides.top ≠ 0 ∧ s.SidesAt pt &&& RectangleSides.bottom ≠ 0) ∧
    (s.SidesAt pt ≠ 0 →
      HasSingleBit (s.SidesAt pt) = true ∨ IsCorner (s.SidesAt pt) = true) ∧
    (∀ event : QMouseEvent, event.buttons = MouseButtons.LeftButton →
      (s.mousePressEvent event).drag.sides ≠ 0 →
      (HasSingleBit (s.mousePressEvent event).drag.sides = true ∨
        IsCorner (s.mousePressEvent event).drag.sides = true) ∧
      ∀ q : QPoint, ∃ o, (s.mousePressEvent event).drag.offsets true q = some o) := by
  have hall : ∀ pt : QPoint, s.SidesAt pt ∈ [0, RectangleSides.left, RectangleSides.top,
      RectangleSides.right, RectangleSides.bottom, RectangleSides.left ||| RectangleSides.top,
      RectangleSides.right ||| RectangleSides.top,
      RectangleSides.left ||| RectangleSides.bottom,
      RectangleSides.right ||| RectangleSides.bottom] := by
    intro pt
    rw [SidesAt_eq]
    exact sides_union_cases _ _ _ _ (IsClamped_disjoint pt.x s.lineWidth s.width hw)
      (IsClamped_disjoint pt.y s.lineWidth s.height hh)
  have hpos : ∀ pt : QPoint, s.SidesAt pt ≠ 0 → 0 < s.lineWidth := by
    intro pt hne
    by_contra hlw
    apply hne
    rw [SidesAt_eq]
    have f : ∀ v lo : Int, IsClamped v lo (lo + s.lineWidth) = false := by
      intro v lo
      unfold IsClamped
      by_cases h1 : lo ≤ v
      · have h2 : ¬ (v < lo + s.lineWidth) := by omega
        simp [h2]
      · simp [h1]
    have f1 := f pt.x 0
    have f2 := f pt.y 0
    have f3 := f pt.x (s.width - s.lineWidth)
    have f4 := f pt.y (s.height - s.lineWidth)
    simp only [zero_add, sub_add_cancel] at f1 f2 f3 f4
    rw [f1, f2, f3, f4]
    rfl
  have hsplit : ∀ r : RectangleSides, r ∈ [0, RectangleSides.left, RectangleSides.top,
      RectangleSides.right, RectangleSides.bottom, RectangleSides.left ||| RectangleSides.top,
      RectangleSides.right ||| RectangleSides.top,
      RectangleSides.left ||| RectangleSides.bottom,
      RectangleSides.right ||| RectangleSides.bottom] →
      ¬ (r &&& RectangleSides.left ≠ 0 ∧ r &&& RectangleSides.right ≠ 0) ∧
      ¬ (r &&& RectangleSides.top ≠ 0 ∧ r &&& RectangleSides.bottom ≠ 0) ∧
      (r ≠ 0 → HasSingleBit r = true ∨ IsCorner r = true) := by
    intro r hr
    simp only [List.mem_cons, List.mem_singleton, List.not_mem_nil, or_false] at hr
    rcases hr with h | h | h | h | h | h | h | h | h <;> subst h <;> decide
  refine ⟨?_, (hsplit _ (hall pt)).1, (hsplit _ (hall pt)).2.1, (hsplit _ (hall pt)).2.2, ?_⟩
  · have := hall pt
    simpa only [List.mem_cons, List.mem_singleton, List.not_mem_nil, or_false] using this
  · intro event hb
    have hd : (s.mousePressEvent event).drag = ⟨s.SidesAt event.pos, s.geometry,
        event.globalPos⟩ := by
      unfold CustomScreen.mousePressEvent
      rw [hb]
    rw [hd]
    intro hne
    refine ⟨(hsplit _ (hall event.pos)).2.2 hne, ?_⟩
    intro q
    have hlw := hpos event.pos hne
    have hw0 : s.geometry.width ≠ 0 := by
      have : 0 < s.geometry.width := by
        have := hw
        unfold CustomScreen.width at this
        omega
      exact this.ne'
    have hh0 : s.geometry.height ≠ 0 := by
      have : 0 < s.geometry.height := by
        have := hh
        unfold CustomScreen.height at this
        omega
      exact this.ne'
    have hmem := hall event.pos
    simp only [List.mem_cons, List.mem_singleton, List.not_mem_nil, or_false] at hmem
    rcases hmem with h | h
    · exact absurd h hne
    · exact offsets_succeed _ q hw0 hh0 h

end Citra

namespace Citra

/-- The entry of `screens` that one `addScreen` call appends. -/
theorem addScreen_screens (ui : ScreenUi) (e : CustomScreenLayoutEditor) (name : String)
    (d c : QRect) :
    (e.addScreen ui name d c).screens =
      e.screens ++ [⟨CustomScreenLayoutEditor.newScreen ui name c, d,
        (CustomScreenLayoutEditor.newScreen ui name c).geometry⟩] := rfl

/-- The vector `screens` after a sequence of `addScreen` calls. -/
theorem addScreens_screens (ui : ScreenUi) (calls : List (String × QRect × QRect)) :
    ∀ e : CustomScreenLayoutEditor, (e.addScreens ui calls).screens =
      e.screens ++ calls.map fun c =>
        ⟨CustomScreenLayoutEditor.newScreen ui c.1 c.2.2, c.2.1,
          (CustomScreenLayoutEditor.newScreen ui c.1 c.2.2).geometry⟩ := by
  induction calls with
  | nil => intro e; simp [CustomScreenLayoutEditor.addScreens]
  | cons c rest ih =>
    intro e
    have step : e.addScreens ui (c :: rest) =
        (e.addScreen ui c.1 c.2.1 c.2.2).addScreens ui rest := rfl
    rw [step, ih, addScreen_screens]
    simp

theorem newScreen_name (ui : ScreenUi) (name : String) (c : QRect) :
    (CustomScreenLayoutEditor.newScreen ui name c).name = name := rfl

/-- The lookup of `getScreen` in an editor filled by `addScreen` calls alone, as a lookup among
the calls. -/
theorem getScreen_addScreens (ui : ScreenUi) (calls : List (String × QRect × QRect))
    (n : String) :
    (CustomScreenLayoutEditor.empty.addScreens ui calls).getScreen n =
      (calls.find? fun c => c.1 == n).map fun c =>
        CustomScreenLayoutEditor.newScreen ui c.1 c.2.2 := by
  unfold CustomScreenLayoutEditor.getScreen
  rw [addScreens_screens]
  simp only [CustomScreenLayoutEditor.empty, List.nil_append]
  induction calls with
  | nil => rfl
  | cons c rest ih =>
    simp only [List.map_cons, List.find?_cons, newScreen_name]
    cases hc : (c.1 == n)
    · simpa using ih
    · simp

/-- The first element that satisfies a test is the one `find?` returns. -/
theorem find?_of_first {α : Type} (p : α → Bool) :
    ∀ (l : List α) (i : Nat) (c : α), l[i]? = some c → p c = true →
      (∀ j b, j < i → l[j]? = some b → p b = false) → l.find? p = some c := by
  intro l
  induction l with
  | nil => intro i c h; simp at h
  | cons a rest ih =>
    intro i c h hp hbefore
    cases i with
    | zero =>
      simp only [List.getElem?_cons_zero, Option.some.injEq] at h
      subst h
      simp [List.find?_cons, hp]
    | succ k =>
      have ha : p a = false := hbefore 0 a (Nat.succ_pos k) (by simp)
      simp only [List.getElem?_cons_succ] at h
      rw [List.find?_cons, ha]
      exact ih k c h hp fun j b hj hb => hbefore (j + 1) b (Nat.succ_lt_succ hj) (by simpa using hb)

/-- The lookup of a name that was just added succeeds, whatever the editor held before. -/
theorem getScreen_addScreen_isSome (ui : ScreenUi) (e : CustomScreenLayoutEditor) (n : String)
    (d c : QRect) : ∃ s, (e.addScreen ui n d c).getScreen n = some s := by
  unfold CustomScreenLayoutEditor.getScreen
  rw [addScreen_screens]
  cases h : (e.screens ++ [(⟨CustomScreenLayoutEditor.newScreen ui n c, d,
      (CustomScreenLayoutEditor.newScreen ui n c).geometry⟩ : RestorableScreen)]).find?
      fun s => s.screen.name == n with
  | some r => exact ⟨r.screen, rfl⟩
  | none =>
    rw [List.find?_eq_none] at h
    have := h ⟨CustomScreenLayoutEditor.newScreen ui n c, d,
      (CustomScreenLayoutEditor.newScreen ui n c).geometry⟩ (by simp)
    simp [newScreen_name] at this

/-- A screen found before a further `addScreen` call is still found after it. -/
theorem getScreen_addScreen_of_isSome (ui : ScreenUi) (e : CustomScreenLayoutEditor)
    (n m : String) (d c : QRect) (s : CustomScreen) (h : e.getScreen n = some s) :
    (e.addScreen ui m d c).getScreen n = some s := by
  unfold CustomScreenLayoutEditor.getScreen at h ⊢
  rw [addScreen_screens, List.find?_append]
  cases hf : e.screens.find? fun s => s.screen.name == n with
  | none => rw [hf] at h; simp at h
  | some r => rw [hf] at h; simpa using h

/-- C8. In an editor filled by a sequence of `addScreen` calls, `getScreen(n)` is null exactly
when no call had the name `n`, and otherwise returns the screen created by the earliest call
with that name; after `addScreen(n, d, c)` on any editor `getScreen(n)` is not null, and after
`AddScreens` the block of `ApplyConfiguration` that looks up both screens returns settings,
that is, it passes both assertions. -/
theorem getScreen_finds_by_name (ui : ScreenUi) (calls : List (String × QRect × QRect))
    (n : String) :
    ((CustomScreenLayoutEditor.empty.addScreens ui calls).getScreen n = none ↔
      ∀ c ∈ calls, c.1 ≠ n) ∧
    (∀ (i : Nat) (c : String × QRect × QRect), calls[i]? = some c → c.1 = n →
      (∀ j b, j < i → calls[j]? = some b → b.1 ≠ n) →
      (CustomScreenLayoutEditor.empty.addScreens ui calls).getScreen n =
        some (CustomScreenLayoutEditor.newScreen ui c.1 c.2.2) ∧
      ((CustomScreenLayoutEditor.empty.addScreens ui calls).screens[i]?).map
        (fun r => r.screen) = some (CustomScreenLayoutEditor.newScreen ui c.1 c.2.2)) ∧
    (∀ (e : CustomScreenLayoutEditor) (d c : QRect),
      ∃ s, (e.addScreen ui n d c).getScreen n = some s) ∧
    (∀ (e : CustomScreenLayoutEditor) (core : Core) (values values2 : Values),
      ∃ v, ApplyConfiguration (AddScreens ui core values e) values2 = some v) := by
  refine ⟨?_, ?_, ?_, ?_⟩
  · rw [getScreen_addScreens]
    simp [List.find?_eq_none]
  · intro i c hi hc hbefore
    constructor
    · rw [getScreen_addScreens,
        find?_of_first (fun c => c.1 == n) calls i c hi (by simpa using hc)
          (fun j b hj hb => by simpa using hbefore j b hj hb)]
      rfl
    · rw [addScreens_screens]
      simp [CustomScreenLayoutEditor.empty, hi]
  · intro e d c
    exact getScreen_addScreen_isSome ui e n d c
  · intro e core values values2
    unfold AddScreens ApplyConfiguration
    obtain ⟨st, hst⟩ := getScreen_addScreen_isSome ui e g_top_screen_name
      (QRect.ofSize 0 0 core.kScreenTopWidth core.kScreenTopHeight)
      (storedGeometry values.custom_top_left values.custom_top_top
        values.custom_top_right values.custom_top_bottom)
    obtain ⟨sb, hsb⟩ := getScreen_addScreen_isSome ui
      (e.addScreen ui g_top_screen_name
        (QRect.ofSize 0 0 core.kScreenTopWidth core.kScreenTopHeight)
        (storedGeometry values.custom_top_left values.custom_top_top
          values.custom_top_right values.custom_top_bottom)) g_bottom_screen_name
      (QRect.ofSize 40 core.kScreenTopHeight core.kScreenBottomWidth core.kScreenBottomHeight)
      (storedGeometry values.custom_bottom_left values.custom_bottom_top
        values.custom_bottom_right values.custom_bottom_bottom)
    have hst2 := getScreen_addScreen_of_isSome ui _ g_top_screen_name g_bottom_screen_name
      (QRect.ofSize 40 core.kScreenTopHeight core.kScreenBottomWidth core.kScreenBottomHeight)
      (storedGeometry values.custom_bottom_left values.custom_bottom_top
        values.custom_bottom_right values.custom_bottom_bottom) st hst
    simp only [hst2, hsb]
    exact ⟨_, rfl⟩

end Citra

namespace Citra

/-- One round of the loop of `updateShaders` on a box that already holds an item. -/
theorem updateShadersStep_eq (name : String) (c : QComboBox) (shader : String)
    (hne : c.items ≠ []) :
    updateShadersStep name c shader =
      ⟨c.items ++ [shader], if name = shader then (c.items.length : Int) else c.currentIndex⟩ := by
  unfold updateShadersStep QComboBox.addItem QComboBox.setCurrentIndex QComboBox.count
  by_cases h : name = shader
  · simp only [h, if_true, if_neg hne, List.length_append, List.length_singleton]
    have h1 : (0 : Int) ≤ ((c.items.length + 1 : Nat) : Int) - 1 ∧
        ((c.items.length + 1 : Nat) : Int) - 1 < ((c.items.length + 1 : Nat) : Int) := by
      constructor <;> omega
    rw [if_pos h1]
    congr 1
    omega
  · simp only [if_neg h, if_neg hne]

/-- The box after the loop of `updateShaders` over the shaders `l`, started on a box that
already holds an item: the items are appended, and the current index is the position of the
last shader equal to the stored name, if there is one. -/
theorem updateShaders_loop (name : String) (l : List String) (c : QComboBox)
    (hne : c.items ≠ []) :
    (l.foldl (updateShadersStep name) c).items = c.items ++ l ∧
    ((∀ x ∈ l, x ≠ name) → (l.foldl (updateShadersStep name) c).currentIndex = c.currentIndex) ∧
    (∀ i : Nat, l[i]? = some name → (∀ j, i < j → l[j]? ≠ some name) →
      (l.foldl (updateShadersStep name) c).currentIndex = (c.items.length + i : Nat)) := by
  induction l using List.reverseRecOn with
  | nil => simp
  | append_singleton l x ih =>
    obtain ⟨ih1, ih2, ih3⟩ := ih
    have hne2 : (l.foldl (updateShadersStep name) c).items ≠ [] := by
      rw [ih1]; simp [hne]
    rw [List.foldl_append, List.foldl_cons, List.foldl_nil, updateShadersStep_eq _ _ _ hne2]
    refine ⟨by simp [ih1], ?_, ?_⟩
    · intro hall
      have hx : name ≠ x := fun e => hall x (by simp) e.symm
      simp only [if_neg hx]
      exact ih2 fun y hy => hall y (by simp [hy])
    · intro i hi hlast
      by_cases hx : name = x
      · simp only [if_pos hx, ih1, List.length_append]
        have hil : ¬ i < l.length := by
          intro hlt
          exact hlast l.length hlt (by simp [hx])
        have hi2 : i < (l ++ [x]).length := by
          by_contra hge
          rw [List.getElem?_eq_none (by omega)] at hi
          simp at hi
        simp only [List.length_append, List.length_singleton] at hi2
        have : i = l.length := by omega
        subst this
        simp
      · simp only [if_neg hx]
        have hil : i < l.length := by
          by_contra hge
          have hi2 : i < (l ++ [x]).length := by
            by_contra hge2
            rw [List.getElem?_eq_none (by omega)] at hi
            simp at hi
          simp only [List.length_append, List.length_singleton] at hi2
          have e : i = l.length := by omega
          subst e
          simp at hi
          exact hx hi.symm
        rw [List.getElem?_append_left hil] at hi
        refine ih3 i hi fun j hj hj2 => ?_
        by_cases hjl : j < l.length
        · exact hlast j hj (by rw [List.getElem?_append_left hjl]; exact hj2)
        · rw [List.getElem?_eq_none (by omega)] at hj2
          simp at hj2

/-- C7. After `updateShaders` the shader box holds the built-in entry of the stereo option at
index 0, followed by the entries of the list returned by `GetPostProcessingShaderList` in
order; the current index is `i + 1` for the last position `i` of the list whose entry equals
`pp_shader_name`, and `0` when no entry equals it. -/
theorem updateShaders_populates (GetPostProcessingShaderList : Bool → List String)
    (pp_shader_name : String) (shader_combobox : QComboBox) (stereo_option : StereoRenderOption) :
    (updateShaders GetPostProcessingShaderList pp_shader_name shader_combobox stereo_option).items
      = builtinShader stereo_option ::
          GetPostProcessingShaderList (decide (stereo_option = StereoRenderOption.Anaglyph)) ∧
    (builtinShader stereo_option =
      match stereo_option with
      | StereoRenderOption.Anaglyph => "dubois (builtin)"
      | StereoRenderOption.Interlaced => "horizontal (builtin)"
      | StereoRenderOption.ReverseInterlaced => "horizontal (builtin)"
      | _ => "none (builtin)") ∧
    ((∀ x ∈ GetPostProcessingShaderList (decide (stereo_option = StereoRenderOption.Anaglyph)),
        x ≠ pp_shader_name) →
      (updateShaders GetPostProcessingShaderList pp_shader_name shader_combobox
        stereo_option).currentIndex = 0) ∧
    (∀ i : Nat,
      (GetPostProcessingShaderList (decide (stereo_option = StereoRenderOption.Anaglyph)))[i]?
        = some pp_shader_name →
      (∀ j, i < j →
        (GetPostProcessingShaderList (decide (stereo_option = StereoRenderOption.Anaglyph)))[j]?
          ≠ some pp_shader_name) →
      (updateShaders GetPostProcessingShaderList pp_shader_name shader_combobox
        stereo_option).currentIndex = (i : Int) + 1) := by
  have h0 : ((shader_combobox.clear.addItem (builtinShader stereo_option)).setCurrentIndex 0) =
      ⟨[builtinShader stereo_option], 0⟩ := by
    simp [QComboBox.clear, QComboBox.addItem, QComboBox.setCurrentIndex, QComboBox.count]
  obtain ⟨l1, l2, l3⟩ := updateShaders_loop pp_shader_name
    (GetPostProcessingShaderList (decide (stereo_option = StereoRenderOption.Anaglyph)))
    ⟨[builtinShader stereo_option], 0⟩ (by simp)
  unfold updateShaders
  simp only [h0]
  refine ⟨by simpa using l1, by cases stereo_option <;> rfl, l2, ?_⟩
  intro i hi hlast
  rw [l3 i hi hlast]
  simp
  omega

end Citra

namespace Citra

/-! ## The widget operations keep a screen settled -/

@[simp] theorem QRect.x_ofSize (x y w h : Int) : (QRect.ofSize x y w h).x = x := rfl
@[simp] theorem QRect.y_ofSize (x y w h : Int) : (QRect.ofSize x y w h).y = y := rfl
@[simp] theorem QRect.width_ofSize (x y w h : Int) : (QRect.ofSize x y w h).width = w := by
  simp only [QRect.ofSize, QRect.width]; omega
@[simp] theorem QRect.height_ofSize (x y w h : Int) : (QRect.ofSize x y w h).height = h := by
  simp only [QRect.ofSize, QRect.height]; omega

/-- A rectangle is the one built from its position and size. -/
theorem QRect.ofSize_self (r : QRect) : QRect.ofSize r.x r.y r.width r.height = r := by
  obtain ⟨x1, y1, x2, y2⟩ := r
  simp only [QRect.ofSize, QRect.x, QRect.y, QRect.width, QRect.height, QRect.mk.injEq,
    true_and]
  constructor <;> omega

/-- The clamp leaves a rectangle with a position inside the canvas and at least the minimum
size as it is. -/
theorem clampedGeometry_of_settled (mw mh : Int) (r : QRect) (hx : 0 ≤ r.x) (hy : 0 ≤ r.y)
    (hw : mw ≤ r.width) (hh : mh ≤ r.height) : CustomScreen.clampedGeometry mw mh r = r := by
  unfold CustomScreen.clampedGeometry
  rw [max_eq_right hx, max_eq_right hy, max_eq_left hw, max_eq_left hh, QRect.ofSize_self]

theorem clampedGeometry_idem (mw mh : Int) (r : QRect) :
    CustomScreen.clampedGeometry mw mh (CustomScreen.clampedGeometry mw mh r) =
      CustomScreen.clampedGeometry mw mh r := by
  apply clampedGeometry_of_settled <;> simp [CustomScreen.clampedGeometry]

theorem moveEvent_geometry (s : CustomScreen) :
    s.moveEvent.geometry = QRect.ofSize (max 0 s.x) (max 0 s.y) s.width s.height := rfl

theorem resizeEvent_geometry (s : CustomScreen) :
    s.resizeEvent.geometry = QRect.ofSize (max 0 s.x) (max 0 s.y) s.width s.height := rfl

/-- The geometry after `setGeometry` on a settled screen. -/
theorem setGeometry_geometry (s : CustomScreen) (r : QRect) (hs : s.Settled) :
    (s.setGeometry r).geometry =
      CustomScreen.clampedGeometry s.minimumWidth s.minimumHeight r := by
  obtain ⟨hx, hy, -, -⟩ := hs
  unfold CustomScreen.setGeometry CustomScreen.clampedGeometry
  simp only []
  split_ifs with h1 h2 h2
  all_goals
    simp only [resizeEvent_geometry, moveEvent_geometry, CustomScreen.x, CustomScreen.y,
      CustomScreen.width, CustomScreen.height, QRect.x_ofSize, QRect.y_ofSize,
      QRect.width_ofSize, QRect.height_ofSize, max_self, decide_eq_true_eq] at *
  all_goals
    simp only [QRect.ofSize, QRect.mk.injEq]
    omega

end Citra

namespace Citra

theorem setGeometry_minimum (s : CustomScreen) (r : QRect) :
    (s.setGeometry r).minimumWidth = s.minimumWidth ∧
      (s.setGeometry r).minimumHeight = s.minimumHeight := by
  unfold CustomScreen.setGeometry
  simp only []
  split_ifs <;> exact ⟨rfl, rfl⟩

theorem move_minimum (s : CustomScreen) (x y : Int) :
    (s.move x y).minimumWidth = s.minimumWidth ∧
      (s.move x y).minimumHeight = s.minimumHeight := by
  unfold CustomScreen.move
  split_ifs <;> exact ⟨rfl, rfl⟩

theorem resize_minimum (s : CustomScreen) (w h : Int) :
    (s.resize w h).minimumWidth = s.minimumWidth ∧
      (s.resize w h).minimumHeight = s.minimumHeight := by
  unfold CustomScreen.resize
  simp only []
  split_ifs <;> exact ⟨rfl, rfl⟩

theorem settled_of_clamped (s : CustomScreen) (r : QRect)
    (h : s.geometry = CustomScreen.clampedGeometry s.minimumWidth s.minimumHeight r) :
    s.Settled := by
  unfold CustomScreen.Settled CustomScreen.x CustomScreen.y CustomScreen.width
    CustomScreen.height
  rw [h]
  simp [CustomScreen.clampedGeometry]

theorem setGeometry_settled (s : CustomScreen) (r : QRect) (hs : s.Settled) :
    (s.setGeometry r).Settled := by
  apply settled_of_clamped _ r
  rw [setGeometry_geometry s r hs, (setGeometry_minimum s r).1, (setGeometry_minimum s r).2]

theorem move_settled (s : CustomScreen) (x y : Int) (hs : s.Settled) : (s.move x y).Settled := by
  unfold CustomScreen.move
  split_ifs
  · exact hs
  · obtain ⟨-, -, hw, hh⟩ := hs
    unfold CustomScreen.Settled CustomScreen.x CustomScreen.y CustomScreen.width
      CustomScreen.height
    rw [moveEvent_geometry]
    simp only [CustomScreen.setPos, CustomScreen.x, CustomScreen.y, CustomScreen.width,
      CustomScreen.height, QRect.x_ofSize, QRect.y_ofSize, QRect.width_ofSize,
      QRect.height_ofSize] at hw hh ⊢
    exact ⟨le_max_left _ _, le_max_left _ _, hw, hh⟩

theorem resize_settled (s : CustomScreen) (w h : Int) (hs : s.Settled) :
    (s.resize w h).Settled := by
  unfold CustomScreen.resize
  simp only []
  split_ifs
  · exact hs
  · unfold CustomScreen.Settled CustomScreen.x CustomScreen.y CustomScreen.width
      CustomScreen.height
    rw [resizeEvent_geometry]
    simp only [CustomScreen.x, CustomScreen.y, CustomScreen.width,
      CustomScreen.height, QRect.x_ofSize, QRect.y_ofSize, QRect.width_ofSize,
      QRect.height_ofSize]
    exact ⟨le_max_left _ _, le_max_left _ _, le_max_right _ _, le_max_right _ _⟩

theorem create_settled (ui : ScreenUi) : (CustomScreen.create ui).Settled := by
  unfold CustomScreen.Settled CustomScreen.x CustomScreen.y CustomScreen.width
    CustomScreen.height CustomScreen.create
  simp

/-- The geometry of a new screen: the current geometry of the call with the size raised to
the minimum size, at the position given, also a negative one. -/
theorem newScreen_geometry (ui : ScreenUi) (name : String) (c : QRect) :
    (CustomScreenLayoutEditor.newScreen ui name c).geometry =
      QRect.ofSize c.x c.y (max c.width ui.minimumWidth) (max c.height ui.minimumHeight) := rfl

theorem newScreen_minimum (ui : ScreenUi) (name : String) (c : QRect) :
    (CustomScreenLayoutEditor.newScreen ui name c).minimumWidth = ui.minimumWidth ∧
      (CustomScreenLayoutEditor.newScreen ui name c).minimumHeight = ui.minimumHeight :=
  ⟨rfl, rfl⟩

/-- The geometry after the first show: the position is clamped at zero. -/
theorem firstShow_geometry (s : CustomScreen) :
    s.firstShow.geometry = QRect.ofSize (max 0 s.x) (max 0 s.y) s.width s.height := by
  unfold CustomScreen.firstShow
  rw [resizeEvent_geometry]
  simp only [CustomScreen.x, CustomScreen.y, CustomScreen.width, CustomScreen.height,
    moveEvent_geometry, QRect.x_ofSize, QRect.y_ofSize, QRect.width_ofSize,
    QRect.height_ofSize]
  rw [max_eq_right (le_max_left 0 s.geometry.x), max_eq_right (le_max_left 0 s.geometry.y)]

theorem firstShow_minimum (s : CustomScreen) :
    s.firstShow.minimumWidth = s.minimumWidth ∧ s.firstShow.minimumHeight = s.minimumHeight :=
  ⟨rfl, rfl⟩

/-- The geometry of a new screen once the editor is shown: the clamped current geometry of the
call. -/
theorem firstShow_newScreen_geometry (ui : ScreenUi) (name : String) (c : QRect) :
    (CustomScreenLayoutEditor.newScreen ui name c).firstShow.geometry =
      CustomScreen.clampedGeometry ui.minimumWidth ui.minimumHeight c := by
  rw [firstShow_geometry]
  simp only [CustomScreen.x, CustomScreen.y, CustomScreen.width, CustomScreen.height,
    newScreen_geometry, QRect.x_ofSize, QRect.y_ofSize, QRect.width_ofSize,
    QRect.height_ofSize]
  rfl

/-- A new screen is settled once the editor is shown. -/
theorem firstShow_newScreen_settled (ui : ScreenUi) (name : String) (c : QRect) :
    (CustomScreenLayoutEditor.newScreen ui name c).firstShow.Settled := by
  apply settled_of_clamped _ c
  rw [firstShow_newScreen_geometry, (firstShow_minimum _).1, (firstShow_minimum _).2,
    (newScreen_minimum ui name c).1, (newScreen_minimum ui name c).2]

/-- Clamping the geometry of a new screen gives the clamped current geometry of the call. -/
theorem clampedGeometry_newScreen (ui : ScreenUi) (name : String) (c : QRect) :
    CustomScreen.clampedGeometry ui.minimumWidth ui.minimumHeight
        (CustomScreenLayoutEditor.newScreen ui name c).geometry =
      CustomScreen.clampedGeometry ui.minimumWidth ui.minimumHeight c := by
  rw [newScreen_geometry]
  unfold CustomScreen.clampedGeometry
  simp only [QRect.x_ofSize, QRect.y_ofSize, QRect.width_ofSize, QRect.height_ofSize]
  rw [max_eq_left (le_max_right c.width ui.minimumWidth),
    max_eq_left (le_max_right c.height ui.minimumHeight)]

theorem mousePressEvent_settled (s : CustomScreen) (event : QMouseEvent) (hs : s.Settled) :
    (s.mousePressEvent event).Settled ∧
      (s.mousePressEvent event).minimumWidth = s.minimumWidth ∧
      (s.mousePressEvent event).minimumHeight = s.minimumHeight := by
  unfold CustomScreen.mousePressEvent
  cases event.buttons <;> exact ⟨hs, rfl, rfl⟩

theorem mouseMoveEvent_settled (s : CustomScreen) (event : QMouseEvent) (hs : s.Settled) :
    ((s.mouseMoveEvent event).getD s).Settled ∧
      ((s.mouseMoveEvent event).getD s).minimumWidth = s.minimumWidth ∧
      ((s.mouseMoveEvent event).getD s).minimumHeight = s.minimumHeight := by
  unfold CustomScreen.mouseMoveEvent
  cases event.buttons
  · exact ⟨hs, rfl, rfl⟩
  · unfold Drag.call
    cases s.drag.requests s.keep_aspect_ratio s.minimumWidth s.minimumHeight event.globalPos with
    | none => exact ⟨hs, rfl, rfl⟩
    | some rq =>
      simp only [Option.map_some', Option.getD_some]
      cases rq.resize with
      | none => exact ⟨move_settled s _ _ hs, move_minimum s _ _⟩
      | some sz =>
        exact ⟨resize_settled _ _ _ (move_settled s _ _ hs),
          ((resize_minimum _ _ _).1.trans (move_minimum s _ _).1),
          ((resize_minimum _ _ _).2.trans (move_minimum s _ _).2)⟩
  · exact ⟨hs, rfl, rfl⟩

end Citra

namespace Citra

/-- After a `setGeometry` that moved the screen, the left and top spin boxes show the clamped
position. -/
theorem setGeometry_spin (s : CustomScreen) (r : QRect) (hm : r.x ≠ s.x ∨ r.y ≠ s.y) :
    (s.setGeometry r).ui_left = max 0 r.x ∧ (s.setGeometry r).ui_top = max 0 r.y := by
  unfold CustomScreen.setGeometry
  simp only [decide_eq_true_eq, if_pos hm]
  split_ifs <;>
    simp [CustomScreen.resizeEvent, CustomScreen.moveEvent, CustomScreen.setPos,
      CustomScreen.x, CustomScreen.y, CustomScreen.width, CustomScreen.height]

/-- A second `setGeometry` with the same rectangle changes nothing. -/
theorem setGeometry_idem (s : CustomScreen) (r : QRect) (hs : s.Settled) :
    (s.setGeometry r).setGeometry r = s.setGeometry r := by
  have hg := setGeometry_geometry s r hs
  have hmin := setGeometry_minimum s r
  have hspin := setGeometry_spin s r
  obtain ⟨hx, hy, -, -⟩ := hs
  generalize s.setGeometry r = s' at hg hmin hspin ⊢
  obtain ⟨name, g, mw, mh, lw, keep, ul, ut, uw, uh, cur, drag⟩ := s'
  simp only at hg hmin hspin
  obtain ⟨hmw, hmh⟩ := hmin
  subst hmw hmh hg
  unfold CustomScreen.setGeometry
  simp only [CustomScreen.x, CustomScreen.y, CustomScreen.width, CustomScreen.height,
    CustomScreen.clampedGeometry, QRect.x_ofSize, QRect.y_ofSize, QRect.width_ofSize,
    QRect.height_ofSize, ne_eq, not_true_eq_false, or_self, decide_False, Bool.false_eq_true,
    if_false] at hspin ⊢
  by_cases hm : r.x ≠ max 0 r.x ∨ r.y ≠ max 0 r.y
  · have hm2 : r.x ≠ s.geometry.x ∨ r.y ≠ s.geometry.y := by
      unfold CustomScreen.x at hx
      unfold CustomScreen.y at hy
      omega
    obtain ⟨h1, h2⟩ := hspin hm2
    subst h1 h2
    simp only [decide_eq_true_eq, if_pos hm, CustomScreen.moveEvent, CustomScreen.setPos,
      CustomScreen.x, CustomScreen.y, CustomScreen.width, CustomScreen.height,
      QRect.x_ofSize, QRect.y_ofSize, QRect.width_ofSize, QRect.height_ofSize]
  · simp only [decide_eq_true_eq, if_neg hm]
    have e1 : max 0 r.x = r.x := by omega
    have e2 : max 0 r.y = r.y := by omega
    rw [e1, e2]

end Citra

namespace Citra

/-! ## Reset and Restore Defaults -/

/-- Changing one element of a list by a function that keeps a relation keeps the relation
between the lists. -/
theorem forall₂_modify {α β : Type} (R : α → β → Prop) (g : β → β)
    (hg : ∀ a b, R a b → R a (g b)) :
    ∀ (l₀ : List α) (l : List β) (i : Nat), List.Forall₂ R l₀ l →
      List.Forall₂ R l₀ (l.modify g i) := by
  intro l₀ l i h
  induction h generalizing i with
  | nil => simp
  | cons hab _ ih =>
    cases i with
    | zero => exact List.Forall₂.cons (hg _ _ hab) (by assumption)
    | succ k => exact List.Forall₂.cons hab (ih k)

/-- Changing every element of a list by a function that keeps a relation keeps the relation
between the lists. -/
theorem forall₂_map {α β : Type} (R : α → β → Prop) (g : β → β)
    (hg : ∀ a b, R a b → R a (g b)) :
    ∀ (l₀ : List α) (l : List β), List.Forall₂ R l₀ l → List.Forall₂ R l₀ (l.map g) := by
  intro l₀ l h
  induction h with
  | nil => exact List.Forall₂.nil
  | cons hab _ ih => exact List.Forall₂.cons (hg _ _ hab) ih

/-- A change of the widget that keeps it settled and keeps its minimum size keeps the record
tracking its call. -/
theorem tracks_of_screen (ui : ScreenUi) (f : CustomScreen → CustomScreen)
    (hf : ∀ s : CustomScreen, s.Settled →
      (f s).Settled ∧ (f s).minimumWidth = s.minimumWidth ∧
        (f s).minimumHeight = s.minimumHeight)
    (c : String × QRect × QRect) (r : RestorableScreen) (h : r.Tracks ui c) :
    RestorableScreen.Tracks ui c { r with screen := f r.screen } := by
  obtain ⟨h1, h2, h3, h4, h5⟩ := h
  obtain ⟨f1, f2, f3⟩ := hf r.screen h3
  exact ⟨h1, h2, f1, f2.trans h4, f3.trans h5⟩

theorem tracks_setGeometry (ui : ScreenUi) (geometry : RestorableScreen → QRect)
    (c : String × QRect × QRect) (r : RestorableScreen) (h : r.Tracks ui c) :
    RestorableScreen.Tracks ui c { r with screen := r.screen.setGeometry (geometry r) } := by
  obtain ⟨h1, h2, h3, h4, h5⟩ := h
  exact ⟨h1, h2, setGeometry_settled _ _ h3, (setGeometry_minimum _ _).1.trans h4,
    (setGeometry_minimum _ _).2.trans h5⟩

/-- Once the editor is shown, the screens of an editor filled by `addScreen` calls track these
calls. -/
theorem tracks_showMaximized (ui : ScreenUi) (calls : List (String × QRect × QRect)) :
    List.Forall₂ (RestorableScreen.Tracks ui) calls
      (CustomScreenLayoutEditor.empty.addScreens ui calls).showMaximized.screens := by
  unfold CustomScreenLayoutEditor.showMaximized
  rw [addScreens_screens]
  simp only [CustomScreenLayoutEditor.empty, List.nil_append, List.map_map]
  induction calls with
  | nil => exact List.Forall₂.nil
  | cons c rest ih =>
    exact List.Forall₂.cons
      ⟨rfl, rfl, firstShow_newScreen_settled ui c.1 c.2.2, (newScreen_minimum ui c.1 c.2.2).1,
        (newScreen_minimum ui c.1 c.2.2).2⟩ ih

/-- Every action keeps the screens tracking their calls. -/
theorem tracks_apply (ui : ScreenUi) (calls : List (String × QRect × QRect))
    (e : CustomScreenLayoutEditor) (a : EditorAction)
    (h : List.Forall₂ (RestorableScreen.Tracks ui) calls e.screens) :
    List.Forall₂ (RestorableScreen.Tracks ui) calls (a.apply e).screens := by
  cases a with
  | moveScreen i x y =>
    exact forall₂_modify _ _ (tracks_of_screen ui _ fun s hs =>
      ⟨move_settled s x y hs, move_minimum s x y⟩) _ _ i h
  | resizeScreen i w ht =>
    exact forall₂_modify _ _ (tracks_of_screen ui _ fun s hs =>
      ⟨resize_settled s w ht hs, resize_minimum s w ht⟩) _ _ i h
  | press i event =>
    exact forall₂_modify _ _ (tracks_of_screen ui _ fun s hs =>
      mousePressEvent_settled s event hs) _ _ i h
  | mouseMove i event =>
    exact forall₂_modify _ _ (tracks_of_screen ui _ fun s hs =>
      mouseMoveEvent_settled s event hs) _ _ i h
  | setKeepAspectRatio i checked =>
    exact forall₂_modify _ _ (tracks_of_screen ui
      (fun s => { s with keep_aspect_ratio := checked }) fun s hs => ⟨hs, rfl, rfl⟩) _ _ i h
  | reset => exact forall₂_map _ _ (tracks_setGeometry ui _) _ _ h
  | restoreDefaults => exact forall₂_map _ _ (tracks_setGeometry ui _) _ _ h

/-- Every sequence of actions keeps the screens tracking their calls. -/
theorem tracks_run (ui : ScreenUi) (calls : List (String × QRect × QRect))
    (actions : List EditorAction) :
    ∀ e : CustomScreenLayoutEditor, List.Forall₂ (RestorableScreen.Tracks ui) calls e.screens →
      List.Forall₂ (RestorableScreen.Tracks ui) calls (e.run actions).screens := by
  induction actions with
  | nil => intro e h; exact h
  | cons a rest ih => intro e h; exact ih (a.apply e) (tracks_apply ui calls e a h)

/-- Two lists related elementwise have equal images under functions that agree on related
elements. -/
theorem map_eq_of_forall₂ {α β γ : Type} (R : α → β → Prop) (f : α → γ) (g : β → γ)
    (hfg : ∀ a b, R a b → g b = f a) :
    ∀ (l₀ : List α) (l : List β), List.Forall₂ R l₀ l → l.map g = l₀.map f := by
  intro l₀ l h
  induction h with
  | nil => rfl
  | cons hab _ ih => simp only [List.map_cons, hfg _ _ hab, ih]

theorem set_screens_map (geometry : RestorableScreen → QRect) (e : CustomScreenLayoutEditor)
    (f : RestorableScreen → QRect) :
    (CustomScreenLayoutEditor.set geometry e).screens.map f =
      e.screens.map fun r => f { r with screen := r.screen.setGeometry (geometry r) } := by
  simp [CustomScreenLayoutEditor.set, Function.comp_def]

/-- A second click on a button that sets recorded geometries changes nothing. -/
theorem set_idem (ui : ScreenUi) (calls : List (String × QRect × QRect))
    (geometry : RestorableScreen → QRect)
    (hgeo : ∀ (r : RestorableScreen) (s : CustomScreen),
      geometry { r with screen := s } = geometry r)
    (e : CustomScreenLayoutEditor)
    (h : List.Forall₂ (RestorableScreen.Tracks ui) calls e.screens) :
    CustomScreenLayoutEditor.set geometry (CustomScreenLayoutEditor.set geometry e) =
      CustomScreenLayoutEditor.set geometry e := by
  obtain ⟨l⟩ := e
  simp only [CustomScreenLayoutEditor.set, List.map_map, CustomScreenLayoutEditor.mk.injEq]
  simp only at h
  induction h with
  | nil => rfl
  | cons hab _ ih =>
    simp only [List.map_cons, List.cons.injEq, Function.comp_apply, hgeo]
    exact ⟨by rw [setGeometry_idem _ _ hab.2.2.1], ih⟩

end Citra

namespace Citra

theorem geometries_addScreens (ui : ScreenUi) (calls : List (String × QRect × QRect)) :
    (CustomScreenLayoutEditor.empty.addScreens ui calls).geometries =
      calls.map fun c => (CustomScreenLayoutEditor.newScreen ui c.1 c.2.2).geometry := by
  unfold CustomScreenLayoutEditor.geometries
  rw [addScreens_screens]
  simp [CustomScreenLayoutEditor.empty, Function.comp_def]

theorem recorded_addScreens (ui : ScreenUi) (calls : List (String × QRect × QRect)) :
    (CustomScreenLayoutEditor.empty.addScreens ui calls).recorded =
      calls.map fun c => (c.2.1, (CustomScreenLayoutEditor.newScreen ui c.1 c.2.2).geometry) := by
  unfold CustomScreenLayoutEditor.recorded
  rw [addScreens_screens]
  simp [CustomScreenLayoutEditor.empty, Function.comp_def]

/-- The geometries once the editor is shown: the clamped current geometries of the calls. -/
theorem geometries_showMaximized (ui : ScreenUi) (calls : List (String × QRect × QRect)) :
    (CustomScreenLayoutEditor.empty.addScreens ui calls).showMaximized.geometries =
      calls.map fun c =>
        CustomScreen.clampedGeometry ui.minimumWidth ui.minimumHeight c.2.2 := by
  unfold CustomScreenLayoutEditor.geometries CustomScreenLayoutEditor.showMaximized
  rw [addScreens_screens]
  simp [CustomScreenLayoutEditor.empty, Function.comp_def, firstShow_newScreen_geometry]

/-- The geometries after Reset, for screens that track their calls: the clamped current
geometries of the calls. -/
theorem geometries_clickReset (ui : ScreenUi) (calls : List (String × QRect × QRect))
    (e : CustomScreenLayoutEditor)
    (h : List.Forall₂ (RestorableScreen.Tracks ui) calls e.screens) :
    e.clickReset.geometries =
      calls.map fun c =>
        CustomScreen.clampedGeometry ui.minimumWidth ui.minimumHeight c.2.2 := by
  unfold CustomScreenLayoutEditor.geometries CustomScreenLayoutEditor.clickReset
  rw [set_screens_map]
  refine map_eq_of_forall₂ (RestorableScreen.Tracks ui) _ _ ?_ _ _ h
  intro c r hr
  obtain ⟨-, h2, h3, h4, h5⟩ := hr
  simp only []
  rw [setGeometry_geometry _ _ h3, h2, h4, h5, clampedGeometry_newScreen]

/-- The geometries after Restore Defaults, for screens that track their calls. -/
theorem geometries_clickRestoreDefaults (ui : ScreenUi)
    (calls : List (String × QRect × QRect)) (e : CustomScreenLayoutEditor)
    (h : List.Forall₂ (RestorableScreen.Tracks ui) calls e.screens) :
    e.clickRestoreDefaults.geometries =
      calls.map fun c =>
        CustomScreen.clampedGeometry ui.minimumWidth ui.minimumHeight c.2.1 := by
  unfold CustomScreenLayoutEditor.geometries CustomScreenLayoutEditor.clickRestoreDefaults
  rw [set_screens_map]
  refine map_eq_of_forall₂ (RestorableScreen.Tracks ui) _ _ ?_ _ _ h
  intro c r hr
  obtain ⟨h1, -, h3, h4, h5⟩ := hr
  simp only []
  rw [setGeometry_geometry _ _ h3, h1, h4, h5]

/-- The recorded geometries of screens that track their calls. -/
theorem recorded_of_tracks (ui : ScreenUi) (calls : List (String × QRect × QRect))
    (e : CustomScreenLayoutEditor)
    (h : List.Forall₂ (RestorableScreen.Tracks ui) calls e.screens) :
    e.recorded =
      calls.map fun c => (c.2.1, (CustomScreenLayoutEditor.newScreen ui c.1 c.2.2).geometry) := by
  unfold CustomScreenLayoutEditor.recorded
  refine map_eq_of_forall₂ (RestorableScreen.Tracks ui) _ _ ?_ _ _ h
  intro c r hr
  rw [hr.1, hr.2.1]

/-- C9, as amended. For screens added by a sequence of `addScreen` calls, the editor then
shown, and any later sequence of moves, resizes, presses, drags and button clicks: Reset gives
every screen the geometry recorded right after it was added with the position clamped at zero,
which is the geometry the screen had when the editor was first shown, and is the recorded
geometry itself when the current geometry of the call had a non-negative position; Restore
Defaults gives every screen its default geometry with the position clamped at zero and the
size raised to the minimum size, which is the default geometry itself when that lies inside the
canvas and has at least the minimum size; the recorded default and reset geometries stay the
ones of the calls, the reset geometry being the geometry right after adding; and a second click
on either button changes nothing. -/
theorem reset_and_restore_defaults (ui : ScreenUi) (calls : List (String × QRect × QRect))
    (actions : List EditorAction) :
    ((CustomScreenLayoutEditor.empty.addScreens ui calls).showMaximized.run
        actions).clickReset.geometries =
      (CustomScreenLayoutEditor.empty.addScreens ui calls).geometries.map
        (CustomScreen.clampedGeometry ui.minimumWidth ui.minimumHeight) ∧
    ((CustomScreenLayoutEditor.empty.addScreens ui calls).showMaximized.run
        actions).clickReset.geometries =
      (CustomScreenLayoutEditor.empty.addScreens ui calls).showMaximized.geometries ∧
    ((∀ c ∈ calls, 0 ≤ c.2.2.x ∧ 0 ≤ c.2.2.y) →
      ((CustomScreenLayoutEditor.empty.addScreens ui calls).showMaximized.run
        actions).clickReset.geometries =
        (CustomScreenLayoutEditor.empty.addScreens ui calls).geometries) ∧
    ((CustomScreenLayoutEditor.empty.addScreens ui calls).showMaximized.run
        actions).clickRestoreDefaults.geometries =
      calls.map (fun c =>
        CustomScreen.clampedGeometry ui.minimumWidth ui.minimumHeight c.2.1) ∧
    ((∀ c ∈ calls, 0 ≤ c.2.1.x ∧ 0 ≤ c.2.1.y ∧ ui.minimumWidth ≤ c.2.1.width ∧
        ui.minimumHeight ≤ c.2.1.height) →
      ((CustomScreenLayoutEditor.empty.addScreens ui calls).showMaximized.run
        actions).clickRestoreDefaults.geometries = calls.map fun c => c.2.1) ∧
    ((CustomScreenLayoutEditor.empty.addScreens ui calls).showMaximized.run actions).recorded =
      (CustomScreenLayoutEditor.empty.addScreens ui calls).recorded ∧
    (CustomScreenLayoutEditor.empty.addScreens ui calls).recorded.map (fun g => g.2) =
      (CustomScreenLayoutEditor.empty.addScreens ui calls).geometries ∧
    ((CustomScreenLayoutEditor.empty.addScreens ui calls).showMaximized.run
        actions).clickReset.clickReset =
      ((CustomScreenLayoutEditor.empty.addScreens ui calls).showMaximized.run
        actions).clickReset ∧
    ((CustomScreenLayoutEditor.empty.addScreens ui calls).showMaximized.run
        actions).clickRestoreDefaults.clickRestoreDefaults =
      ((CustomScreenLayoutEditor.empty.addScreens ui calls).showMaximized.run
        actions).clickRestoreDefaults := by
  have ht := tracks_run ui calls actions _ (tracks_showMaximized ui calls)
  have hreset := geometries_clickReset ui calls _ ht
  refine ⟨?_, ?_, ?_, geometries_clickRestoreDefaults ui calls _ ht, ?_, ?_, ?_, ?_, ?_⟩
  · rw [hreset, geometries_addScreens, List.map_map]
    apply List.map_congr_left
    intro c _
    exact (clampedGeometry_newScreen ui c.1 c.2.2).symm
  · rw [hreset, geometries_showMaximized]
  · intro hin
    rw [hreset, geometries_addScreens]
    apply List.map_congr_left
    intro c hc
    obtain ⟨h1, h2⟩ := hin c hc
    rw [← clampedGeometry_newScreen ui c.1 c.2.2]
    apply clampedGeometry_of_settled
    · rw [newScreen_geometry]; exact h1
    · rw [newScreen_geometry]; exact h2
    · rw [newScreen_geometry, QRect.width_ofSize]; exact le_max_right _ _
    · rw [newScreen_geometry, QRect.height_ofSize]; exact le_max_right _ _
  · intro hin
    rw [geometries_clickRestoreDefaults ui calls _ ht]
    apply List.map_congr_left
    intro c hc
    obtain ⟨h1, h2, h3, h4⟩ := hin c hc
    exact clampedGeometry_of_settled _ _ _ h1 h2 h3 h4
  · rw [recorded_of_tracks ui calls _ ht, recorded_addScreens]
  · rw [recorded_addScreens, geometries_addScreens, List.map_map]
    rfl
  · exact set_idem ui calls RestorableScreen.reset_geometry (fun _ _ => rfl) _ ht
  · exact set_idem ui calls RestorableScreen.default_geometry (fun _ _ => rfl) _ ht

/-- C9, as stated, fails. A screen added with the default geometry at `(-5, 0)` and the current
geometry at `(-5, -3)` keeps `(-5, -3)` right after it was added, which is also the recorded
reset geometry; once the editor is shown, Reset leaves the screen at `(0, 0)` and so does
Restore Defaults, because `moveEvent` clamps the position: neither is the recorded geometry. -/
theorem reset_and_restore_defaults_clamp :
    (CustomScreenLayoutEditor.empty.addScreen ⟨20, 20, 2, 100, 60, true⟩ "Top"
        (QRect.ofSize (-5) 0 400 240) (QRect.ofSize (-5) (-3) 400 240)).screens.map
      (fun r => (r.screen.geometry, r.reset_geometry, r.default_geometry)) =
        [(QRect.ofSize (-5) (-3) 400 240, QRect.ofSize (-5) (-3) 400 240,
          QRect.ofSize (-5) 0 400 240)] ∧
    (CustomScreenLayoutEditor.empty.addScreen ⟨20, 20, 2, 100, 60, true⟩ "Top"
        (QRect.ofSize (-5) 0 400 240)
        (QRect.ofSize (-5) (-3) 400 240)).showMaximized.clickReset.geometries =
      [QRect.ofSize 0 0 400 240] ∧
    (CustomScreenLayoutEditor.empty.addScreen ⟨20, 20, 2, 100, 60, true⟩ "Top"
        (QRect.ofSize (-5) 0 400 240)
        (QRect.ofSize (-5) (-3) 400 240)).showMaximized.clickRestoreDefaults.geometries =
      [QRect.ofSize 0 0 400 240] ∧
    QRect.ofSize 0 0 400 240 ≠ QRect.ofSize (-5) (-3) 400 240 ∧
    QRect.ofSize 0 0 400 240 ≠ QRect.ofSize (-5) 0 400 240 := by
  decide

end Citra

namespace Citra

/-- A list that names the stored shader twice: the second occurrence, at position 2, wins. -/
theorem updateShaders_populates_witness :
    (updateShaders (fun _ => ["bump", "scanlines", "bump", "sepia"]) "bump" ⟨["old"], 0⟩
      StereoRenderOption.Interlaced).currentIndex = (2 : Nat) + 1 :=
  (updateShaders_populates (fun _ => ["bump", "scanlines", "bump", "sepia"]) "bump" ⟨["old"], 0⟩
    StereoRenderOption.Interlaced).2.2.2 2 rfl (fun j hj => by
      match j, hj with
      | 3, _ => decide
      | k + 4, _ => simp)

/-- Of the two sample screens named Top the lookup returns the one added first. -/
theorem getScreen_finds_by_name_witness :
    (CustomScreenLayoutEditor.empty.addScreens sampleUi sampleCalls).getScreen "Top" =
      some (CustomScreenLayoutEditor.newScreen sampleUi "Top" (QRect.ofSize 10 10 400 240)) :=
  ((getScreen_finds_by_name sampleUi sampleCalls "Top").2.1 0
    ("Top", QRect.ofSize 0 0 400 240, QRect.ofSize 10 10 400 240) rfl rfl
    (fun j _ hj => absurd hj (Nat.not_lt_zero j))).1

/-- The sample defaults lie inside the canvas, so Restore Defaults restores them exactly. -/
theorem reset_and_restore_defaults_witness :
    ((CustomScreenLayoutEditor.empty.addScreens sampleUi sampleCalls).showMaximized.run
        sampleActions).clickRestoreDefaults.geometries = sampleCalls.map fun c => c.2.1 :=
  (reset_and_restore_defaults sampleUi sampleCalls sampleActions).2.2.2.2.1 (by decide)

/-- A point in the bottom-left corner of a screen of 100 by 60 with line width 2. -/
theorem SidesAt_side_corner_or_nothing_witness :
    pressedInside.SidesAt ⟨1, 59⟩ = (RectangleSides.left ||| RectangleSides.bottom) ∧
      IsCorner (pressedInside.SidesAt ⟨1, 59⟩) = true :=
  ⟨by decide,
    ((SidesAt_side_corner_or_nothing pressedInside ⟨1, 59⟩ (by decide) (by decide)).2.2.2.1
      (by decide)).resolve_left (by decide)⟩

end Citra

namespace Citra

/-- The round trip through the editor: when the stored coordinates of both screens describe
rectangles of at least the minimum size, so that adding the screens leaves their geometry as
stored, `ApplyConfiguration` after `AddScreens`, with the editor never shown, stores the same
values. -/
theorem ApplyConfiguration_AddScreens (ui : ScreenUi) (core : Core) (values : Values)
    (ht : ui.minimumWidth ≤ values.custom_top_right - values.custom_top_left ∧
      ui.minimumHeight ≤ values.custom_top_bottom - values.custom_top_top)
    (hb : ui.minimumWidth ≤ values.custom_bottom_right - values.custom_bottom_left ∧
      ui.minimumHeight ≤ values.custom_bottom_bottom - values.custom_bottom_top) :
    ApplyConfiguration (AddScreens ui core values CustomScreenLayoutEditor.empty) values =
      some values := by
  have hadd : AddScreens ui core values CustomScreenLayoutEditor.empty =
      CustomScreenLayoutEditor.empty.addScreens ui
        [(g_top_screen_name, QRect.ofSize 0 0 core.kScreenTopWidth core.kScreenTopHeight,
          storedGeometry values.custom_top_left values.custom_top_top
            values.custom_top_right values.custom_top_bottom),
         (g_bottom_screen_name,
          QRect.ofSize 40 core.kScreenTopHeight core.kScreenBottomWidth
            core.kScreenBottomHeight,
          storedGeometry values.custom_bottom_left values.custom_bottom_top
            values.custom_bottom_right values.custom_bottom_bottom)] := rfl
  have hne : (g_top_screen_name == g_bottom_screen_name) = false := by decide
  have hstored : ∀ l t r b : Int, ui.minimumWidth ≤ r - l → ui.minimumHeight ≤ b - t →
      QRect.ofSize (storedGeometry l t r b).x (storedGeometry l t r b).y
          (max (storedGeometry l t r b).width ui.minimumWidth)
          (max (storedGeometry l t r b).height ui.minimumHeight) =
        storedGeometry l t r b := by
    intro l t r b h3 h4
    have e1 : max (storedGeometry l t r b).width ui.minimumWidth =
        (storedGeometry l t r b).width := by
      apply max_eq_left
      simp only [storedGeometry, QRect.ofPoints, QRect.width]
      omega
    have e2 : max (storedGeometry l t r b).height ui.minimumHeight =
        (storedGeometry l t r b).height := by
      apply max_eq_left
      simp only [storedGeometry, QRect.ofPoints, QRect.height]
      omega
    rw [e1, e2, QRect.ofSize_self]
  unfold ApplyConfiguration
  rw [hadd, getScreen_addScreens, getScreen_addScreens]
  simp only [List.find?_cons, beq_self_eq_true, hne, Option.map_some', newScreen_geometry,
    Option.bind_eq_bind, Option.some_bind]
  rw [hstored _ _ _ _ ht.1 ht.2, hstored _ _ _ _ hb.1 hb.2,
    geometryToStore_storedGeometry, geometryToStore_storedGeometry]

end Citra

namespace Citra

/-! ## Growth of the adjacent sides -/

/-- The conversion to `int` of a `double` has the sign of the `double` or is zero. -/
theorem static_cast_int_sign_of (x : ℚ) :
    (0 ≤ x → 0 ≤ static_cast_int x) ∧ (x ≤ 0 → static_cast_int x ≤ 0) := by
  unfold static_cast_int
  have hden : (0 : Int) < (x.den : Int) := by exact_mod_cast x.den_pos
  constructor
  · intro hq
    exact Int.tdiv_nonneg (Rat.num_nonneg.2 hq) hden.le
  · intro hq
    have hn : x.num ≤ 0 := Rat.num_nonpos.2 hq
    have h2 : 0 ≤ (-x.num).tdiv (x.den : Int) := Int.tdiv_nonneg (by omega) hden.le
    rw [Int.neg_tdiv] at h2
    omega

/-- The conversion to `int` of the `double` product of a positive factor and an integer has
the sign of the integer or is zero. -/
theorem static_cast_int_sign (ar : ℚ) (har : 0 < ar) (d : Int) :
    (0 ≤ d → 0 ≤ static_cast_int (Double.mul ar (Double.ofInt d))) ∧
      (d ≤ 0 → static_cast_int (Double.mul ar (Double.ofInt d)) ≤ 0) := by
  unfold Double.mul Double.ofInt
  constructor
  · intro hd
    have h1 : 0 ≤ binary64 (d : ℚ) := binary64_nonneg _ (by exact_mod_cast hd)
    exact (static_cast_int_sign_of _).1 (binary64_nonneg _ (mul_nonneg har.le h1))
  · intro hd
    have h1 : binary64 (d : ℚ) ≤ 0 := binary64_nonpos _ (by exact_mod_cast hd)
    exact (static_cast_int_sign_of _).2
      (binary64_nonpos _ (mul_nonpos_of_nonneg_of_nonpos har.le h1))

/-- Halving by C++ division keeps the sign. -/
theorem tdiv_two_sign (g : Int) :
    (0 ≤ g → 0 ≤ g.tdiv 2) ∧ (g ≤ 0 → g.tdiv 2 ≤ 0) := by
  constructor
  · intro hg
    exact Int.tdiv_nonneg hg (by decide)
  · intro hg
    have h2 : 0 ≤ (-g).tdiv 2 := Int.tdiv_nonneg (by omega) (by decide)
    rw [Int.neg_tdiv] at h2
    omega

end Citra

namespace Citra

/-- The half growth that `GrowAdjacents` gives to an adjacent side has the sign of the dragged
offset or is zero. -/
theorem half_growth_sign (ar : ℚ) (har : 0 < ar) (d : Int) :
    (0 ≤ d → 0 ≤ (static_cast_int (Double.mul ar (Double.ofInt d))).tdiv 2) ∧
      (d ≤ 0 → (static_cast_int (Double.mul ar (Double.ofInt d))).tdiv 2 ≤ 0) :=
  ⟨fun h => (tdiv_two_sign _).1 ((static_cast_int_sign ar har d).1 h),
    fun h => (tdiv_two_sign _).2 ((static_cast_int_sign ar har d).2 h)⟩

/-- C11. For each of the four sides `s`, a positive aspect ratio and the offsets of a drag of
`s` alone, `GrowAdjacents` returns offsets in which `s` keeps its offset (the `x` component of
the drag offset for left and right, the `y` component for top and bottom), the opposite side
keeps `0`, and the sides before and after `s` hold `a` and `-a` in one or the other order; the
change `right - left` of the width and the change `bottom - top` of the height then satisfy:
the change of the dimension perpendicular to the drag is zero or has the sign of the change of
the dragged dimension. -/
theorem GrowAdjacents_symmetric_same_direction (ar : ℚ) (har : 0 < ar) (s : RectangleSides)
    (q : QPoint)
    (hs : s = RectangleSides.left ∨ s = RectangleSides.top ∨ s = RectangleSides.right ∨
      s = RectangleSides.bottom) :
    ∃ (o : RectangleSideOffsets) (p n opp : RectangleSides) (a : Int),
      GrowAdjacents ar (Drag.initialOffsets s q) s = some o ∧
      prev s = some p ∧ next s = some n ∧ next n = some opp ∧
      o.get s = some (if s = RectangleSides.left ∨ s = RectangleSides.right then q.x else q.y) ∧
      o.get opp = some 0 ∧
      ((o.get p = some a ∧ o.get n = some (-a)) ∨ (o.get p = some (-a) ∧ o.get n = some a)) ∧
      (s = RectangleSides.top ∨ s = RectangleSides.bottom →
        o.sides2 - o.sides0 = 0 ∨
        (0 < o.sides2 - o.sides0 ∧ 0 < o.sides3 - o.sides1) ∨
        (o.sides2 - o.sides0 < 0 ∧ o.sides3 - o.sides1 < 0)) ∧
      (s = RectangleSides.left ∨ s = RectangleSides.right →
        o.sides3 - o.sides1 = 0 ∨
        (0 < o.sides3 - o.sides1 ∧ 0 < o.sides2 - o.sides0) ∨
        (o.sides3 - o.sides1 < 0 ∧ o.sides2 - o.sides0 < 0)) := by
  have hx := half_growth_sign ar har q.x
  have hy := half_growth_sign ar har q.y
  rcases hs with h | h | h | h <;> subst h
  · refine ⟨_, RectangleSides.bottom, RectangleSides.top, RectangleSides.right,
      (static_cast_int (Double.mul ar (Double.ofInt q.x))).tdiv 2, GrowAdjacents_left ar _, rfl, rfl, rfl, rfl, rfl,
      Or.inr ⟨by rw [initialOffsets_left, ← Int.neg_tdiv]; rfl, rfl⟩, ?_, ?_⟩
    · intro h
      rcases h with h | h <;> exact absurd h (by decide)
    · intro _
      rw [initialOffsets_left]
      simp only [Int.neg_tdiv]
      omega
  · refine ⟨_, RectangleSides.left, RectangleSides.right, RectangleSides.bottom,
      (static_cast_int (Double.mul ar (Double.ofInt q.y))).tdiv 2, GrowAdjacents_top ar _, rfl, rfl, rfl, rfl, rfl,
      Or.inl ⟨rfl, by rw [initialOffsets_top, ← Int.neg_tdiv]; rfl⟩, ?_, ?_⟩
    · intro _
      rw [initialOffsets_top]
      simp only [Int.neg_tdiv]
      omega
    · intro h
      rcases h with h | h <;> exact absurd h (by decide)
  · refine ⟨_, RectangleSides.top, RectangleSides.bottom, RectangleSides.left,
      (static_cast_int (Double.mul ar (Double.ofInt q.x))).tdiv 2, GrowAdjacents_right ar _, rfl, rfl, rfl, rfl, rfl,
      Or.inr ⟨by rw [initialOffsets_right, ← Int.neg_tdiv]; rfl, rfl⟩, ?_, ?_⟩
    · intro h
      rcases h with h | h <;> exact absurd h (by decide)
    · intro _
      rw [initialOffsets_right]
      simp only [Int.neg_tdiv]
      omega
  · refine ⟨_, RectangleSides.right, RectangleSides.left, RectangleSides.top,
      (static_cast_int (Double.mul ar (Double.ofInt q.y))).tdiv 2, GrowAdjacents_bottom ar _, rfl, rfl, rfl, rfl, rfl,
      Or.inl ⟨rfl, by rw [initialOffsets_bottom, ← Int.neg_tdiv]; rfl⟩, ?_, ?_⟩
    · intro _
      rw [initialOffsets_bottom]
      simp only [Int.neg_tdiv]
      omega
    · intro h
      rcases h with h | h <;> exact absurd h (by decide)

end Citra

namespace Citra

/-! ## The clamp of `moveEvent` -/

/-- C12. After `moveEvent`, and after `resizeEvent`, which calls it, a screen that was at
`(x, y)` is at `(max(0, x), max(0, y))`, so both coordinates are non-negative; the same holds
after every `move` that changes the position or starts from a non-negative one, and after
every `resize` that changes the size or starts from a non-negative position; a non-negative
position is left unchanged, the size is never changed by the clamp, and the left and top spin
boxes hold the clamped `x` and `y`. -/
theorem moveEvent_clamps_position (s : CustomScreen) (x y w h : Int) :
    ((s.setPos x y).moveEvent.x = max 0 x ∧ (s.setPos x y).moveEvent.y = max 0 y ∧
      (s.setPos x y).resizeEvent.x = max 0 x ∧ (s.setPos x y).resizeEvent.y = max 0 y) ∧
    (s.moveEvent.x = max 0 s.x ∧ s.moveEvent.y = max 0 s.y ∧
      s.resizeEvent.x = max 0 s.x ∧ s.resizeEvent.y = max 0 s.y) ∧
    (0 ≤ s.moveEvent.x ∧ 0 ≤ s.moveEvent.y ∧ 0 ≤ s.resizeEvent.x ∧ 0 ≤ s.resizeEvent.y) ∧
    ((x ≠ s.x ∨ y ≠ s.y) ∨ (0 ≤ s.x ∧ 0 ≤ s.y) →
      (s.move x y).x = max 0 x ∧ (s.move x y).y = max 0 y) ∧
    ((max w s.minimumWidth ≠ s.width ∨ max h s.minimumHeight ≠ s.height) ∨
        (0 ≤ s.x ∧ 0 ≤ s.y) →
      (s.resize w h).x = max 0 s.x ∧ (s.resize w h).y = max 0 s.y) ∧
    (0 ≤ s.x → 0 ≤ s.y →
      s.moveEvent.geometry = s.geometry ∧ s.resizeEvent.geometry = s.geometry) ∧
    (s.moveEvent.width = s.width ∧ s.moveEvent.height = s.height ∧
      s.resizeEvent.width = s.width ∧ s.resizeEvent.height = s.height) ∧
    (s.moveEvent.ui_left = max 0 s.x ∧ s.moveEvent.ui_top = max 0 s.y ∧
      s.resizeEvent.ui_left = max 0 s.x ∧ s.resizeEvent.ui_top = max 0 s.y) := by
  have hpos : ∀ t : CustomScreen, t.moveEvent.x = max 0 t.x ∧ t.moveEvent.y = max 0 t.y ∧
      t.resizeEvent.x = max 0 t.x ∧ t.resizeEvent.y = max 0 t.y := by
    intro t
    simp only [CustomScreen.x, CustomScreen.y, moveEvent_geometry, resizeEvent_geometry,
      QRect.x_ofSize, QRect.y_ofSize, and_self]
  have hset : (s.setPos x y).x = x ∧ (s.setPos x y).y = y := ⟨rfl, rfl⟩
  refine ⟨?_, hpos s, ?_, ?_, ?_, ?_, ?_, ?_⟩
  · have := hpos (s.setPos x y)
    rw [hset.1, hset.2] at this
    exact this
  · obtain ⟨h1, h2, h3, h4⟩ := hpos s
    rw [h1, h2, h3, h4]
    exact ⟨le_max_left _ _, le_max_left _ _, le_max_left _ _, le_max_left _ _⟩
  · intro hc
    unfold CustomScreen.move
    split_ifs with hsame
    · obtain ⟨e1, e2⟩ := hsame
      rcases hc with hc | hc
      · rcases hc with hc | hc
        · exact absurd e1 hc
        · exact absurd e2 hc
      · rw [e1, e2, max_eq_right hc.1, max_eq_right hc.2]
        exact ⟨rfl, rfl⟩
    · have := hpos (s.setPos x y)
      rw [hset.1, hset.2] at this
      exact ⟨this.1, this.2.1⟩
  · intro hc
    unfold CustomScreen.resize
    simp only []
    split_ifs with hsame
    · obtain ⟨e1, e2⟩ := hsame
      rcases hc with hc | hc
      · rcases hc with hc | hc
        · exact absurd e1 hc
        · exact absurd e2 hc
      · rw [max_eq_right hc.1, max_eq_right hc.2]
        exact ⟨rfl, rfl⟩
    · simp only [CustomScreen.x, CustomScreen.y, resizeEvent_geometry, QRect.x_ofSize,
        QRect.y_ofSize, and_self]
  · intro hx hy
    unfold CustomScreen.x at hx
    unfold CustomScreen.y at hy
    rw [resizeEvent_geometry, moveEvent_geometry]
    simp only [CustomScreen.x, CustomScreen.y, CustomScreen.width, CustomScreen.height,
      max_eq_right hx, max_eq_right hy, QRect.ofSize_self, and_self]
  · simp only [CustomScreen.width, CustomScreen.height, moveEvent_geometry,
      resizeEvent_geometry, QRect.width_ofSize, QRect.height_ofSize, and_self]
  · simp only [CustomScreen.moveEvent, CustomScreen.resizeEvent, CustomScreen.setPos,
      CustomScreen.x, CustomScreen.y, QRect.x_ofSize, QRect.y_ofSize, max_self,
      CustomScreen.width, CustomScreen.height, QRect.width_ofSize, QRect.height_ofSize]
    simp

end Citra

namespace Citra

/-! ## Free resize past the minimum size -/

/-- Without the aspect ratio kept, for any original geometry and any sides grabbed: the
position passed to `move` stays at or before the last position that
leaves room for the minimum size, and with the size raised to the minimum size the right edge
stays in place unless the right side is grabbed, the bottom edge unless the bottom side is
grabbed. -/
theorem free_requests_pin (d : Drag) (minimumWidth minimumHeight : Int) (p : QPoint)
    (hne : d.sides ≠ 0) :
    ∃ pos size, d.requests false minimumWidth minimumHeight p = some ⟨pos, some size⟩ ∧
      pos.x ≤ d.original_screen_geometry.right - minimumWidth + 1 ∧
      pos.y ≤ d.original_screen_geometry.bottom - minimumHeight + 1 ∧
      (d.sides &&& RectangleSides.right = 0 →
        (QRect.ofSize pos.x pos.y (max size.width minimumWidth)
          (max size.height minimumHeight)).right = d.original_screen_geometry.right) ∧
      (d.sides &&& RectangleSides.bottom = 0 →
        (QRect.ofSize pos.x pos.y (max size.width minimumWidth)
          (max size.height minimumHeight)).bottom = d.original_screen_geometry.bottom) := by
  refine ⟨_, _, requests_of_offsets d false _ _ p _ hne (offsets_free d _), min_le_right _ _,
    min_le_right _ _, ?_, ?_⟩
  · intro hr
    simp only [Drag.initialOffsets, hr, ne_eq, not_true_eq_false, if_false, QRect.ofSize,
      QRect.right, QRect.x, QRect.width]
    generalize (if ¬d.sides &&& RectangleSides.left = 0 then (p.sub d.press_position).x
      else 0) = l
    omega
  · intro hb
    simp only [Drag.initialOffsets, hb, ne_eq, not_true_eq_false, if_false, QRect.ofSize,
      QRect.bottom, QRect.y, QRect.height]
    generalize (if ¬d.sides &&& RectangleSides.top = 0 then (p.sub d.press_position).y
      else 0) = t
    omega

/-- C13. With the aspect ratio not kept and the left side (respectively the top side)
grabbed, for every original geometry and every pointer position the `x` (respectively `y`) passed to `move` is at most `right - minimumWidth + 1` (respectively
`bottom - minimumHeight + 1`); with the requested size raised to the minimum size as `resize`
does, the right (respectively bottom) edge of the requested geometry is the original one, and
the size is at least the minimum size. -/
theorem left_top_drag_pins_opposite_edge (d : Drag) (minimumWidth minimumHeight : Int)
    (p : QPoint)
    (hside : d.sides = RectangleSides.left ∨ d.sides = RectangleSides.top) :
    ∃ pos size, d.requests false minimumWidth minimumHeight p = some ⟨pos, some size⟩ ∧
      (d.sides = RectangleSides.left →
        pos.x ≤ d.original_screen_geometry.right - minimumWidth + 1 ∧
        (QRect.ofSize pos.x pos.y (max size.width minimumWidth)
          (max size.height minimumHeight)).right = d.original_screen_geometry.right) ∧
      (d.sides = RectangleSides.top →
        pos.y ≤ d.original_screen_geometry.bottom - minimumHeight + 1 ∧
        (QRect.ofSize pos.x pos.y (max size.width minimumWidth)
          (max size.height minimumHeight)).bottom = d.original_screen_geometry.bottom) ∧
      minimumWidth ≤ (QRect.ofSize pos.x pos.y (max size.width minimumWidth)
        (max size.height minimumHeight)).width ∧
      minimumHeight ≤ (QRect.ofSize pos.x pos.y (max size.width minimumWidth)
        (max size.height minimumHeight)).height := by
  have hne : d.sides ≠ 0 := by
    rcases hside with h | h <;> rw [h] <;> decide
  obtain ⟨pos, size, hreq, hx, hy, hr, hb⟩ :=
    free_requests_pin d minimumWidth minimumHeight p hne
  refine ⟨pos, size, hreq, ?_, ?_, ?_, ?_⟩
  · intro h
    exact ⟨hx, hr (by rw [h]; decide)⟩
  · intro h
    exact ⟨hy, hb (by rw [h]; decide)⟩
  · rw [QRect.width_ofSize]
    exact le_max_right _ _
  · rw [QRect.height_ofSize]
    exact le_max_right _ _

end Citra

namespace Citra

/-! ## The requests carried out on a screen -/

/-- The geometry after `move` on a screen at a non-negative position. -/
theorem move_geometry (s : CustomScreen) (x y : Int) (hx : 0 ≤ s.x) (hy : 0 ≤ s.y) :
    (s.move x y).geometry = QRect.ofSize (max 0 x) (max 0 y) s.width s.height := by
  unfold CustomScreen.move
  split_ifs with hsame
  · obtain ⟨e1, e2⟩ := hsame
    rw [e1, e2, max_eq_right hx, max_eq_right hy]
    exact (QRect.ofSize_self s.geometry).symm
  · rw [moveEvent_geometry]
    simp only [CustomScreen.setPos, CustomScreen.x, CustomScreen.y, CustomScreen.width,
      CustomScreen.height, QRect.x_ofSize, QRect.y_ofSize, QRect.width_ofSize,
      QRect.height_ofSize]

/-- The geometry after `resize` on a screen at a non-negative position. -/
theorem resize_geometry (s : CustomScreen) (w h : Int) (hx : 0 ≤ s.x) (hy : 0 ≤ s.y) :
    (s.resize w h).geometry =
      QRect.ofSize s.x s.y (max w s.minimumWidth) (max h s.minimumHeight) := by
  unfold CustomScreen.resize
  simp only []
  split_ifs with hsame
  · obtain ⟨e1, e2⟩ := hsame
    rw [e1, e2]
    exact (QRect.ofSize_self s.geometry).symm
  · rw [resizeEvent_geometry]
    simp only [CustomScreen.x, CustomScreen.y, CustomScreen.width, CustomScreen.height,
      QRect.x_ofSize, QRect.y_ofSize, QRect.width_ofSize, QRect.height_ofSize]
    unfold CustomScreen.x at hx
    unfold CustomScreen.y at hy
    rw [max_eq_right hx, max_eq_right hy]

/-- On a screen at a non-negative position `Drag::operator()` with a side grabbed leaves the
requested rectangle, clamped: the position at zero, the size at the minimum size. -/
theorem call_geometry (d : Drag) (s : CustomScreen) (p pos : QPoint) (size : QSize)
    (hx : 0 ≤ s.x) (hy : 0 ≤ s.y)
    (hreq : d.requests s.keep_aspect_ratio s.minimumWidth s.minimumHeight p =
      some ⟨pos, some size⟩) :
    (d.call s p).map (fun t => t.geometry) =
      some (CustomScreen.clampedGeometry s.minimumWidth s.minimumHeight
        (QRect.ofSize pos.x pos.y size.width size.height)) := by
  unfold Drag.call
  rw [hreq]
  simp only [Option.map_some', Option.some.injEq]
  have hm := move_geometry s pos.x pos.y hx hy
  have hmx : 0 ≤ (s.move pos.x pos.y).x := by
    unfold CustomScreen.x
    rw [hm]
    exact le_max_left _ _
  have hmy : 0 ≤ (s.move pos.x pos.y).y := by
    unfold CustomScreen.y
    rw [hm]
    exact le_max_left _ _
  rw [resize_geometry _ _ _ hmx hmy, (move_minimum s _ _).1, (move_minimum s _ _).2]
  unfold CustomScreen.clampedGeometry
  simp only [CustomScreen.x, CustomScreen.y, hm, QRect.x_ofSize, QRect.y_ofSize,
    QRect.width_ofSize, QRect.height_ofSize]

/-- The limit of the pinned edge: a screen of 100 by 60 at `(10, 10)`, grabbed by its left
side and dragged 30 pixels to the left, is asked to move to `x = -20` with width 130, which
keeps the right edge at 109; `moveEvent` then holds the screen at `x = 0`, and the right edge
of the widget ends at 129. -/
theorem left_drag_past_canvas :
    Drag.requests ⟨RectangleSides.left, QRect.ofSize 10 10 100 60, ⟨50, 50⟩⟩ false 20 20
        ⟨20, 50⟩ = some ⟨⟨-20, 10⟩, some ⟨130, 60⟩⟩ ∧
      (QRect.ofSize (-20) 10 130 60).right = (QRect.ofSize 10 10 100 60).right ∧
      (Drag.call ⟨RectangleSides.left, QRect.ofSize 10 10 100 60, ⟨50, 50⟩⟩
        ((CustomScreen.create sampleUi).setGeometry (QRect.ofSize 10 10 100 60))
        ⟨20, 50⟩).map (fun t => t.geometry.right) = some 129 := by
  decide

end Citra

namespace Citra

/-- The top side dragged down by 12 pixels at the aspect ratio 5 : 3. -/
theorem GrowAdjacents_symmetric_same_direction_witness :
    ∃ (o : RectangleSideOffsets) (p n opp : RectangleSides) (a : Int),
      GrowAdjacents (5 / 3) (Drag.initialOffsets RectangleSides.top ⟨7, 12⟩)
        RectangleSides.top = some o ∧
      prev RectangleSides.top = some p ∧ next RectangleSides.top = some n ∧
      next n = some opp ∧
      o.get RectangleSides.top =
        some (if RectangleSides.top = RectangleSides.left ∨
          RectangleSides.top = RectangleSides.right then 7 else 12) ∧
      o.get opp = some 0 ∧
      ((o.get p = some a ∧ o.get n = some (-a)) ∨ (o.get p = some (-a) ∧ o.get n = some a)) ∧
      (RectangleSides.top = RectangleSides.top ∨ RectangleSides.top = RectangleSides.bottom →
        o.sides2 - o.sides0 = 0 ∨
        (0 < o.sides2 - o.sides0 ∧ 0 < o.sides3 - o.sides1) ∨
        (o.sides2 - o.sides0 < 0 ∧ o.sides3 - o.sides1 < 0)) ∧
      (RectangleSides.top = RectangleSides.left ∨ RectangleSides.top = RectangleSides.right →
        o.sides3 - o.sides1 = 0 ∨
        (0 < o.sides3 - o.sides1 ∧ 0 < o.sides2 - o.sides0) ∨
        (o.sides3 - o.sides1 < 0 ∧ o.sides2 - o.sides0 < 0)) :=
  GrowAdjacents_symmetric_same_direction (5 / 3) (by norm_num) RectangleSides.top ⟨7, 12⟩
    (Or.inr (Or.inl rfl))

/-- A new screen moved to `(-5, 7)` ends at `(0, 7)`. -/
theorem moveEvent_clamps_position_witness :
    ((CustomScreen.create sampleUi).move (-5) 7).x = max 0 (-5) ∧
      ((CustomScreen.create sampleUi).move (-5) 7).y = max 0 7 :=
  (moveEvent_clamps_position (CustomScreen.create sampleUi) (-5) 7 50 50).2.2.2.1
    (Or.inl (Or.inl (by decide)))

/-- A screen of 100 by 60 with minimum size 20 by 20, grabbed by its left side and dragged 95
pixels to the right, past the minimum width. -/
theorem left_top_drag_pins_opposite_edge_witness :
    ∃ pos size,
      (⟨RectangleSides.left, QRect.ofSize 10 10 100 60, ⟨0, 0⟩⟩ : Drag).requests false 20 20
        ⟨95, 0⟩ = some ⟨pos, some size⟩ ∧
      (RectangleSides.left = RectangleSides.left →
        pos.x ≤ (QRect.ofSize 10 10 100 60).right - 20 + 1 ∧
        (QRect.ofSize pos.x pos.y (max size.width 20) (max size.height 20)).right =
          (QRect.ofSize 10 10 100 60).right) ∧
      (RectangleSides.left = RectangleSides.top →
        pos.y ≤ (QRect.ofSize 10 10 100 60).bottom - 20 + 1 ∧
        (QRect.ofSize pos.x pos.y (max size.width 20) (max size.height 20)).bottom =
          (QRect.ofSize 10 10 100 60).bottom) ∧
      20 ≤ (QRect.ofSize pos.x pos.y (max size.width 20) (max size.height 20)).width ∧
      20 ≤ (QRect.ofSize pos.x pos.y (max size.width 20) (max size.height 20)).height :=
  left_top_drag_pins_opposite_edge ⟨RectangleSides.left, QRect.ofSize 10 10 100 60, ⟨0, 0⟩⟩
    20 20 ⟨95, 0⟩ (Or.inl rfl)

end Citra
